import Mathlib

/-!
Verification development for the site-selection scoring core.

Shallow embedding of the Go sources:
* `internal/schema` — field definitions, schema resolution (`Resolve`),
* `internal/scoring` — the scoring engine (`DefaultScoreFunc`, `normalizeValue`)
  and the run pipeline (`Execute`, `ExecuteWithRetry`, `sortRecommendationsByScore`),
* `internal/repository` — the atomic idempotency claim (`Claim`) and the
  run-store status updates the pipeline performs.

Modelling conventions:
* Go `float64` is modelled by `ℚ`: every operation the scoring core performs
  (addition, multiplication, division guarded against zero denominators,
  comparison, clamping) is exact on the rationals.
* Go maps (`map[string]T`) are modelled by association lists
  (`List (String × T)`); a Go map's key-uniqueness invariant appears as a
  `nodupKeys` hypothesis where a proof needs it.  Map indexing with the Go
  zero-value default is `lookupKV`/`weightOf`; map assignment is `setKV`.
* Fallible Go calls return `Except String` / `Option`; collaborator stores
  (run store, record store, config store) are modelled by an environment
  record giving each call's outcome, and the mutable run row by explicit
  state passing.
-/

namespace SiteIQ

/-- `math.Max` on the embedded floats (kernel-computable form). -/
def fmax (a b : ℚ) : ℚ := if a ≤ b then b else a

/-- `math.Min` on the embedded floats (kernel-computable form). -/
def fmin (a b : ℚ) : ℚ := if a ≤ b then a else b

theorem fmax_eq_max (a b : ℚ) : fmax a b = max a b := by
  simp [fmax, max_def]

theorem fmin_eq_min (a b : ℚ) : fmin a b = min a b := by
  simp [fmin, min_def]

deriving instance DecidableEq for Except

/-- Association-list lookup: the value of the first pair whose key matches.
Models indexing a Go map (whose keys are unique). -/
def lookupKV {α : Type} : List (String × α) → String → Option α
  | [], _ => none
  | p :: rest, k => if p.1 = k then some p.2 else lookupKV rest k

/-- Association-list assignment, modelling `m[k] = v` on a Go map:
replace the value when the key is present, append otherwise. -/
def setKV {α : Type} (m : List (String × α)) (k : String) (v : α) : List (String × α) :=
  match lookupKV m k with
  | some _ => m.map (fun p => if p.1 = k then (k, v) else p)
  | none => m ++ [(k, v)]

/-- The keys of an association list are pairwise distinct (Go map invariant). -/
def nodupKeys {α : Type} (m : List (String × α)) : Prop :=
  (m.map Prod.fst).Nodup

/-- Field data types, from `internal/schema` (`FieldType` constants). -/
inductive FieldType : Type
  | percentage
  | index
  | integer
  | numeric
  | population
  | text
  | identifier
deriving DecidableEq

/-- Optimization direction of a field, from `internal/schema` (`Direction`). -/
inductive Direction : Type
  | maximize
  | minimize
deriving DecidableEq

/-- One field's schema contract (`FieldDef` in `internal/schema`). -/
structure FieldDef : Type where
  type : FieldType
  required : Bool
  min : Option ℚ
  max : Option ℚ
  weight : ℚ
  direction : Direction
  description : String
deriving DecidableEq

/-- The merged run-ready schema (`ResolvedSchema` in `internal/schema`).
`fields` is the iteration sequence of the Go `Fields` map. -/
structure ResolvedSchema : Type where
  fields : List (String × FieldDef)
  siteIDColumn : String
  weights : List (String × ℚ)
deriving DecidableEq

/-- A dynamically-typed record value (`interface{}` in the Go site-data map).
`num` covers the already-numeric cases (`float64`, `float32`, `int`,
`int64`, `int32`); `str` carries a string together with the result of the
standard library's JSON-number parse of that string (`some q` exactly when
the string is a numeric literal) — the parser itself lives in Go's
`encoding/json`, outside this repository; `other` is any other dynamic type. -/
inductive Value : Type
  | num : ℚ → Value
  | str : Option ℚ → Value
  | other : Value
deriving DecidableEq

/-- `toFloat64` from `internal/scoring`: numeric values convert directly,
strings convert exactly when they parse as a JSON number, everything else
fails. -/
def toFloat64 : Value → Option ℚ
  | Value.num v => some v
  | Value.str parsed => parsed
  | Value.other => none

/-- `isNumericFieldType` from `internal/scoring`. -/
def isNumericFieldType : FieldType → Bool
  | FieldType.numeric => true
  | FieldType.integer => true
  | FieldType.percentage => true
  | FieldType.index => true
  | FieldType.population => true
  | _ => false

/-- `normalizeValue` from `internal/scoring`: normalize a value to [0,1].
With either bound absent it falls back to `clamp(value/100, 0, 1)` and
returns before the direction handling; with equal bounds it returns 0.5
before both the clamping and the minimize inversion. -/
def normalizeValue (value : ℚ) (min? max? : Option ℚ) (direction : Direction) : ℚ :=
  match min?, max? with
  | some minVal, some maxVal =>
    if maxVal = minVal then 1/2
    else
      let normalized := (value - minVal) / (maxVal - minVal)
      let normalized := fmax 0 (fmin 1 normalized)
      if direction = Direction.minimize then 1 - normalized else normalized
  | _, _ => fmax 0 (fmin 1 (value / 100))

/-- `generateReasonString` from `internal/scoring`: the quality band of the
normalized value (thresholds 0.75 / 0.5 / 0.25) phrased by direction.  The
`%.2f` rendering of the raw value and the cosmetic capitalization of the
field name are elided; no property depends on them. -/
def generateReasonString (fieldName : String) (normalizedValue : ℚ)
    (direction : Direction) : String :=
  let quality :=
    if normalizedValue ≥ 3/4 then "excellent"
    else if normalizedValue ≥ 1/2 then "good"
    else if normalizedValue ≥ 1/4 then "fair"
    else "poor"
  if direction = Direction.maximize then
    fieldName ++ " value is " ++ quality ++ " for this metric (higher is better)"
  else
    fieldName ++ " value is " ++ quality ++ " for this metric (lower is better)"

/-- Go map indexing with the zero-value default:
`resolvedSchema.Weights[fieldName]` yields 0 for an absent key. -/
def weightOf (weights : List (String × ℚ)) (fieldName : String) : ℚ :=
  (lookupKV weights fieldName).getD 0

/-- One factor of a score explanation (`models.ExplanationFactor`). -/
structure ExplanationFactor : Type where
  name : String
  value : ℚ
  weight : ℚ
  contribution : ℚ
  direction : String
  reason : String
deriving DecidableEq

/-- A score explanation (`models.Explanation`).  The generated natural
language `Summary` string is elided; no property depends on it. -/
structure Explanation : Type where
  factors : List ExplanationFactor
deriving DecidableEq

/-- The per-field body of `DefaultScoreFunc`'s loop, as the optional
explanation factor a field produces.  The `none` branches are, in source
order, the `continue` paths of the Go loop: non-numeric type or zero
embedded weight, zero effective weight (`Weights[fieldName]`), value absent
from the site data, value not coercible to a number.  The `some` branch
builds the factor with `contribution = normalizedValue * weight`. -/
def factorOf (siteData : List (String × Value)) (weights : List (String × ℚ))
    (p : String × FieldDef) : Option ExplanationFactor :=
  let fieldName := p.1
  let fieldDef := p.2
  if ¬ isNumericFieldType fieldDef.type ∨ fieldDef.weight = 0 then none
  else
    let weight := weightOf weights fieldName
    if weight = 0 then none
    else
      match lookupKV siteData fieldName with
      | none => none
      | some rawValue =>
        match toFloat64 rawValue with
        | none => none
        | some numValue =>
          let normalizedValue :=
            normalizeValue numValue fieldDef.min fieldDef.max fieldDef.direction
          let contribution := normalizedValue * weight
          let direction :=
            if fieldDef.direction = Direction.minimize then "minimize" else "maximize"
          some { name := fieldName
                 value := numValue
                 weight := weight
                 contribution := contribution
                 direction := direction
                 reason := generateReasonString fieldName normalizedValue fieldDef.direction }

/-- The running accumulators of `DefaultScoreFunc`'s loop. -/
structure ScoreState : Type where
  factors : List ExplanationFactor
  totalWeightedScore : ℚ
  totalWeight : ℚ
  maxPossibleScore : ℚ
deriving DecidableEq

/-- One iteration of `DefaultScoreFunc`'s loop: a field that produces a
factor appends it and accumulates `contribution` into the weighted total and
`weight` into both the total weight and the maximum possible score; a
skipped field leaves the state unchanged. -/
def processField (siteData : List (String × Value)) (weights : List (String × ℚ))
    (st : ScoreState) (p : String × FieldDef) : ScoreState :=
  match factorOf siteData weights p with
  | none => st
  | some factor =>
    { factors := st.factors ++ [factor]
      totalWeightedScore := st.totalWeightedScore + factor.contribution
      totalWeight := st.totalWeight + factor.weight
      maxPossibleScore := st.maxPossibleScore + factor.weight }

/-- The whole field loop of `DefaultScoreFunc` over the resolved schema's
field sequence. -/
def scoreLoop (siteData : List (String × Value)) (s : ResolvedSchema) : ScoreState :=
  s.fields.foldl (processField siteData s.weights) ⟨[], 0, 0, 0⟩

/-- The result triple of the scoring engine
(`rawScore`, `finalScore`, `explanation`). -/
structure ScoreOutput : Type where
  rawScore : ℚ
  finalScore : ℚ
  explanation : Explanation
deriving DecidableEq

/-- `DefaultScoreFunc` from `internal/scoring`: errors on a nil schema or
empty site data; otherwise runs the field loop, takes
`finalScore = (raw / maxPossible) * 100` when `maxPossible > 0` and 0
otherwise, clamps it to [0,100], and sorts the factors by descending
absolute contribution (Go's `sort.Slice` comparator
`|c_i| > |c_j|`, modelled by an insertion sort with that relation). -/
def DefaultScoreFunc (siteData : List (String × Value))
    (resolvedSchema : Option ResolvedSchema) : Except String ScoreOutput :=
  match resolvedSchema with
  | none => Except.error "resolved schema cannot be nil"
  | some s =>
    if siteData.length = 0 then Except.error "site data cannot be empty"
    else
      let st := scoreLoop siteData s
      let rawScore := st.totalWeightedScore
      let finalScore := if st.maxPossibleScore > 0
        then rawScore / st.maxPossibleScore * 100 else 0
      let finalScore := fmax 0 (fmin 100 finalScore)
      let factors := List.insertionSort
        (fun a b => |a.contribution| > |b.contribution|) st.factors
      Except.ok ⟨rawScore, finalScore, ⟨factors⟩⟩

/-- The global schema configuration (`GlobalSchemaConfig` in
`internal/schema`), already parsed from its JSON payload (the
`encoding/json` decode lives outside this repository). -/
structure GlobalSchemaConfig : Type where
  fields : List (String × FieldDef)
  siteIDColumn : String
deriving DecidableEq

/-- A tenant's schema override (`TenantSchemaOverride` in `internal/schema`),
already parsed from JSON.  An absent/`null`/empty payload is modelled by
passing `none` to `Resolve`. -/
structure TenantSchemaOverride : Type where
  fields : List (String × FieldDef)
  siteIDColumn : Option String
  weights : List (String × ℚ)
deriving DecidableEq

/-- The global-copy pass of `Resolve`: for each global field, set the field
definition and its embedded weight on the (initially empty) resolved schema. -/
def copyGlobalFields (global : GlobalSchemaConfig) : ResolvedSchema :=
  global.fields.foldl
    (fun resolved p =>
      { resolved with
          fields := setKV resolved.fields p.1 p.2
          weights := setKV resolved.weights p.1 p.2.weight })
    { fields := [], siteIDColumn := global.siteIDColumn, weights := [] }

/-- The tenant field pass of `Resolve`: each tenant-declared field fully
replaces (or adds) the definition of the same name and sets that field's
weight from the tenant definition. -/
def applyTenantFields (resolved : ResolvedSchema)
    (tfields : List (String × FieldDef)) : ResolvedSchema :=
  tfields.foldl
    (fun r p =>
      { r with
          fields := setKV r.fields p.1 p.2
          weights := setKV r.weights p.1 p.2.weight })
    resolved

/-- The standalone weight pass of `Resolve`: each tenant weight entry must
name an existing field of the merged set, else the call fails; otherwise it
overrides that field's weight. -/
def applyWeightOverrides (r : ResolvedSchema) :
    List (String × ℚ) → Except String ResolvedSchema
  | [] => Except.ok r
  | (name, w) :: rest =>
    match lookupKV r.fields name with
    | none => Except.error ("cannot override weight for non-existent field: " ++ name)
    | some _ => applyWeightOverrides { r with weights := setKV r.weights name w } rest

/-- `Resolve` from `internal/schema`: validate the global configuration
(non-empty identifier column, at least one field), copy the global fields
and weights, then — when a tenant override is present — overlay its
identifier column, its field definitions, and finally its standalone weight
map. -/
def Resolve (global : GlobalSchemaConfig)
    (tenantConfig : Option TenantSchemaOverride) : Except String ResolvedSchema :=
  if global.siteIDColumn = "" then
    Except.error "global schema config must specify site_id_column"
  else if global.fields.length = 0 then
    Except.error "global schema config must specify at least one field"
  else
    let resolved := copyGlobalFields global
    match tenantConfig with
    | none => Except.ok resolved
    | some tenant =>
      let resolved :=
        { resolved with siteIDColumn := tenant.siteIDColumn.getD resolved.siteIDColumn }
      let resolved := applyTenantFields resolved tenant.fields
      applyWeightOverrides resolved tenant.weights

/-- A scored result row (`models.Recommendation`).  The uuid, tenant,
site-name, serialized-JSON and timestamp columns are elided; no property
depends on them. -/
structure Recommendation : Type where
  siteID : String
  finalScore : ℚ
  rawScore : ℚ
  explanation : Explanation
  ranking : Nat
deriving DecidableEq

/-- One stored input record (`models.SiteRecord`): its identifier and the
result of `json.Unmarshal` on its stored field map (`none` models a parse
failure, which the pipeline skips). -/
structure SiteRecord : Type where
  siteID : String
  data : Option (List (String × Value))
deriving DecidableEq

/-- The scoring portion of `Execute` (steps e–f): parse each record's stored
field map (skip on failure), score it with the pipeline's score function —
`DefaultScoreFunc` by default — (skip on failure), and build a result holder
with `Ranking` deferred (0). -/
def scoreRecords (resolvedSchema : ResolvedSchema) (records : List SiteRecord) :
    List Recommendation :=
  records.filterMap (fun sr =>
    match sr.data with
    | none => none
    | some siteData =>
      match DefaultScoreFunc siteData (some resolvedSchema) with
      | Except.error _ => none
      | Except.ok out =>
        some ⟨sr.siteID, out.finalScore, out.rawScore, out.explanation, 0⟩)

/-- The inner loop of `sortRecommendationsByScore`
(`for j := i+1; j < n; j++ { if recs[j].FinalScore > recs[i].FinalScore swap }`).
`fuel` counts the remaining iterations; call sites pass enough fuel to run
the loop to `j = n`, so the fueled function computes exactly the Go loop. -/
def sortInner (fuel : Nat) (recs : List Recommendation) (i j : Nat) :
    List Recommendation :=
  match fuel with
  | 0 => recs
  | f + 1 =>
    if hj : j < recs.length then
      if hi : i < recs.length then
        let recs' :=
          if (recs.get ⟨j, hj⟩).finalScore > (recs.get ⟨i, hi⟩).finalScore then
            (recs.set i (recs.get ⟨j, hj⟩)).set j (recs.get ⟨i, hi⟩)
          else recs
        sortInner f recs' i (j + 1)
      else recs
    else recs

/-- The outer loop of `sortRecommendationsByScore`
(`for i := 0; i < n; i++ { inner loop }`), fueled like `sortInner`. -/
def sortOuter (fuel : Nat) (recs : List Recommendation) (i : Nat) :
    List Recommendation :=
  match fuel with
  | 0 => recs
  | f + 1 =>
    if i < recs.length then
      sortOuter f (sortInner recs.length recs i (i + 1)) (i + 1)
    else recs

/-- `sortRecommendationsByScore` from `internal/scoring/pipeline.go`: the
swap-based double loop sorting by `FinalScore` descending. -/
def sortRecommendationsByScore (recs : List Recommendation) : List Recommendation :=
  sortOuter recs.length recs 0

/-- The ranking pass of `Execute`
(`for i := range recommendations { recommendations[i].Ranking = i + 1 }`),
started at `i = 0`. -/
def assignRankings : Nat → List Recommendation → List Recommendation
  | _, [] => []
  | i, r :: rest => { r with ranking := i + 1 } :: assignRankings (i + 1) rest

/-- Sort by final score descending, then assign dense 1-based rankings
(`Execute`, steps f and the ranking loop). -/
def rankResults (recs : List Recommendation) : List Recommendation :=
  assignRankings 0 (sortRecommendationsByScore recs)

/-- The final score stored at position `k` of a result list (0 out of
range); the quantity the ranking order is defined by. -/
def fscore (l : List Recommendation) (k : Nat) : ℚ :=
  match l[k]? with
  | some r => r.finalScore
  | none => 0

/-- The mutable columns of one `scoring_runs` row that the pipeline writes
(`models.ScoringRun` / the run repository).  Timestamps are elided. -/
structure RunRecord : Type where
  status : String
  scoredCount : Option Nat
  lastError : Option String
  durationMs : Option Nat
  attempt : Nat
deriving DecidableEq

/-- `RunRepository.UpdateStatus`: sets the status and COALESCEs each
optional column with its previous value (a `none` argument leaves the stored
value unchanged). -/
def updateStatus (r : RunRecord) (status : String) (scoredCount : Option Nat)
    (lastError : Option String) (durationMs : Option Nat) : RunRecord :=
  { r with
      status := status
      scoredCount := match scoredCount with | some v => some v | none => r.scoredCount
      lastError := match lastError with | some v => some v | none => r.lastError
      durationMs := match durationMs with | some v => some v | none => r.durationMs }

/-- The durable state one pipeline run touches: its run row, the
recommendations persisted so far, and how many bulk-insert calls were made. -/
structure PipelineState : Type where
  run : RunRecord
  persisted : List Recommendation
  bulkInsertCalls : Nat
deriving DecidableEq

/-- The outcomes of the collaborator calls one `Execute` attempt makes, in
call order.  A `some e` / `Except.error e` models the store call failing
with message `e`. -/
structure ExecEnv : Type where
  markRunningErr : Option String
  globalConfig : Except String (Option GlobalSchemaConfig)
  tenantConfig : Except String (Option TenantSchemaOverride)
  createSnapshotErr : Option String
  siteRecords : Except String (List SiteRecord)
  bulkInsertErr : Option String
  finalUpdateErr : Option String
  elapsedMs : Nat

/-- `handleExecutionError`: update the run to `failed` with the error as
`lastError` (a failure of that update itself is only logged) and return the
original error. -/
def handleExecutionError (env : ExecEnv) (st : PipelineState) (errMsg : String) :
    PipelineState × Option String :=
  (if env.finalUpdateErr = none then
      { st with run := updateStatus st.run "failed" none (some errMsg) none }
    else st,
   some errMsg)

/-- `Pipeline.Execute` from `internal/scoring/pipeline.go`: mark the run
running, resolve the schema (global + tenant), snapshot it, fetch the site
records, succeed immediately with `scoredCount = 0` on an empty set,
otherwise score each record, sort and rank, bulk-insert, and mark the run
succeeded with the scored count.  Every step failure goes through
`handleExecutionError`, except the final succeeded-status update whose error
is returned directly (empty-input case: only logged). -/
def Execute (env : ExecEnv) (st : PipelineState) : PipelineState × Option String :=
  match env.markRunningErr with
  | some e => handleExecutionError env st e
  | none =>
    let st := { st with run := updateStatus st.run "running" none none none }
    match env.globalConfig with
    | Except.error e => handleExecutionError env st e
    | Except.ok none =>
      handleExecutionError env st "no active global schema configuration found"
    | Except.ok (some globalCfg) =>
      match env.tenantConfig with
      | Except.error e => handleExecutionError env st e
      | Except.ok tenantCfg =>
        match Resolve globalCfg tenantCfg with
        | Except.error e => handleExecutionError env st e
        | Except.ok resolvedSchema =>
          match env.createSnapshotErr with
          | some e => handleExecutionError env st e
          | none =>
            match env.siteRecords with
            | Except.error e => handleExecutionError env st e
            | Except.ok siteRecords =>
              if siteRecords.length = 0 then
                (if env.finalUpdateErr = none then
                    { st with run := (updateStatus st.run "succeeded" (some 0) none
                        (some env.elapsedMs)) }
                  else st,
                 none)
              else
                let recommendations := rankResults (scoreRecords resolvedSchema siteRecords)
                match env.bulkInsertErr with
                | some e =>
                  let st := { st with bulkInsertCalls := st.bulkInsertCalls + 1 }
                  handleExecutionError env st e
                | none =>
                  let st := { st with
                    persisted := st.persisted ++ recommendations
                    bulkInsertCalls := st.bulkInsertCalls + 1 }
                  match env.finalUpdateErr with
                  | some e => (st, some e)
                  | none =>
                    ({ st with run := (updateStatus st.run "succeeded"
                        (some recommendations.length) none (some env.elapsedMs)) },
                     none)

/-- How the retry loop of `ExecuteWithRetry` exits: an attempt succeeded, the
backoff sleep observed cancellation, or all attempts failed (carrying the
last error). -/
inductive LoopExit : Type
  | success
  | cancelled (e : String)
  | exhausted (lastErr : String)
deriving DecidableEq

/-- The environment of `ExecuteWithRetry`: the configured retry maximum, the
collaborator outcomes each attempt observes, whether each attempt's
`IncrementAttempt` call fails (failure is only logged), whether the backoff
after each attempt observes cancellation, and the outcome of the final
failed-status update. -/
structure RetryEnv : Type where
  maxRetries : Nat
  attempts : Nat → ExecEnv
  incrementErr : Nat → Option String
  cancelled : Nat → Bool
  failedUpdateErr : Option String

/-- The attempt-counter increment one loop iteration performs when the
`IncrementAttempt` store call succeeds (`attempt = attempt + 1` on the run
row). -/
def incrState (st : PipelineState) : PipelineState :=
  { st with run := { st.run with attempt := st.run.attempt + 1 } }

/-- The retry loop of `ExecuteWithRetry`
(`for attempt := 0; attempt <= maxRetries; attempt++`): increment the
attempt counter (failure only logged), run `Execute`, return on success,
break after the last attempt, otherwise back off (observing cancellation)
and continue.  Returns the final state, the number of `Execute` attempts
performed, and how the loop exited.  `fuel` counts the remaining loop
iterations; call sites pass `maxRetries + 1 - attempt`. -/
def retryLoop (env : RetryEnv) : Nat → PipelineState → Nat →
    PipelineState × Nat × LoopExit
  | 0, st, _ => (st, 0, LoopExit.exhausted "")
  | f + 1, st, attempt =>
    let st := match env.incrementErr attempt with
      | some _ => st
      | none => incrState st
    match Execute (env.attempts attempt) st with
    | (st, none) => (st, 1, LoopExit.success)
    | (st, some e) =>
      if attempt ≥ env.maxRetries then (st, 1, LoopExit.exhausted e)
      else if env.cancelled attempt then (st, 1, LoopExit.cancelled "context canceled")
      else
        let next := retryLoop env f st (attempt + 1)
        (next.1, next.2.1 + 1, next.2.2)

/-- `Pipeline.ExecuteWithRetry`: run the retry loop from attempt 0; on
success return nil, on cancellation return the context error, and on
exhaustion perform one final `failed` status update carrying the composite
message `scoring pipeline failed after <maxRetries+1> attempts: <lastErr>`
(update failure only logged) and return that message as the error.  The
middle component counts the `Execute` attempts performed. -/
def ExecuteWithRetry (env : RetryEnv) (st : PipelineState) :
    PipelineState × Nat × Option String :=
  match retryLoop env (env.maxRetries + 1) st 0 with
  | (stF, n, LoopExit.success) => (stF, n, none)
  | (stF, n, LoopExit.cancelled e) => (stF, n, some e)
  | (stF, n, LoopExit.exhausted lastErr) =>
    let errorMsg := "scoring pipeline failed after " ++ toString (env.maxRetries + 1)
      ++ " attempts: " ++ lastErr
    let stF := if env.failedUpdateErr = none then
        { stF with run := updateStatus stF.run "failed" none (some errorMsg) none }
      else stF
    (stF, n, some errorMsg)

/-- The state thread of the retry loop when every attempt so far failed and
no increment call failed: `failChain env attempt st i` is the pipeline state
at the top of loop iteration `attempt + i`, having started iteration
`attempt` in state `st` — each prior iteration incremented the attempt
counter and ran `Execute`.  Used to state which attempt is the first to
succeed. -/
def failChain (env : RetryEnv) (attempt : Nat) (st : PipelineState) : Nat → PipelineState
  | 0 => st
  | i + 1 =>
    (Execute (env.attempts (attempt + i)) (incrState (failChain env attempt st i))).1

/-- One row of the `idempotency_keys` table: the composite primary key
(tenant, key, resource type) and the claimed resource id.  The advisory
`expires_at` column is elided (expiry affects storage growth, not the
within-window semantics the claims are about). -/
structure IdempotencyKeyRow : Type where
  tenantID : String
  key : String
  resourceType : String
  resourceID : String
deriving DecidableEq

/-- The outcome of an atomic claim attempt (`IdempotencyResult`). -/
structure IdempotencyResult : Type where
  alreadyExists : Bool
  resourceID : String
deriving DecidableEq

/-- The stored resource id for a composite key, if any (the conflict lookup
of the claim query; the composite primary key makes at most one row match). -/
def findClaim : List IdempotencyKeyRow → String → String → String → Option String
  | [], _, _, _ => none
  | r :: rest, tenantID, key, resourceType =>
    if r.tenantID = tenantID ∧ r.key = key ∧ r.resourceType = resourceType then
      some r.resourceID
    else findClaim rest tenantID key resourceType

/-- `IdempotencyRepository.Claim`: reject an empty key; otherwise perform the
atomic `INSERT … ON CONFLICT DO NOTHING` + read-existing query — if the
composite key is present return the stored id with `alreadyExists = true`
and leave the table unchanged, else insert the candidate and return it with
`alreadyExists = false`.  The database serializes concurrent claims, so a
sequence of `Claim` calls models any concurrent schedule. -/
def Claim (tbl : List IdempotencyKeyRow)
    (tenantID key resourceType resourceID : String) :
    Except String (List IdempotencyKeyRow × IdempotencyResult) :=
  if key = "" then Except.error "idempotency key cannot be empty"
  else
    match findClaim tbl tenantID key resourceType with
    | some existing => Except.ok (tbl, ⟨true, existing⟩)
    | none =>
      Except.ok (tbl ++ [⟨tenantID, key, resourceType, resourceID⟩], ⟨false, resourceID⟩)

/-- A serialized sequence of claim attempts for one composite key, one per
candidate id, threading the table through; returns the per-call results and
the final table.  Models any interleaving of concurrent callers (the store
executes the atomic claims in some serial order). -/
def claimAll (tbl : List IdempotencyKeyRow) (tenantID key resourceType : String) :
    List String → List (Except String IdempotencyResult) × List IdempotencyKeyRow
  | [] => ([], tbl)
  | cand :: rest =>
    match Claim tbl tenantID key resourceType cand with
    | Except.error e =>
      let next := claimAll tbl tenantID key resourceType rest
      (Except.error e :: next.1, next.2)
    | Except.ok (tbl', res) =>
      let next := claimAll tbl' tenantID key resourceType rest
      (Except.ok res :: next.1, next.2)

theorem clamp01_nonneg (x : ℚ) : 0 ≤ fmax 0 (fmin 1 x) := by
  rw [fmax_eq_max]
  exact le_max_left 0 _

theorem clamp01_le_one (x : ℚ) : fmax 0 (fmin 1 x) ≤ 1 := by
  rw [fmax_eq_max, fmin_eq_min]
  exact max_le (by norm_num) (min_le_left 1 x)

theorem clamp01_mono {x y : ℚ} (h : x ≤ y) : fmax 0 (fmin 1 x) ≤ fmax 0 (fmin 1 y) := by
  rw [fmax_eq_max, fmax_eq_max, fmin_eq_min, fmin_eq_min]
  exact max_le_max le_rfl (min_le_min le_rfl h)

theorem clamp01_eq_self {x : ℚ} (h0 : 0 ≤ x) (h1 : x ≤ 1) : fmax 0 (fmin 1 x) = x := by
  rw [fmax_eq_max, fmin_eq_min, min_eq_right h1, max_eq_right h0]

theorem normalizeValue_mem_unit (v : ℚ) (lo hi : Option ℚ) (dir : Direction) :
    0 ≤ normalizeValue v lo hi dir ∧ normalizeValue v lo hi dir ≤ 1 := by
  rcases lo with _ | a <;> rcases hi with _ | b <;> unfold normalizeValue
  · exact ⟨clamp01_nonneg _, clamp01_le_one _⟩
  · exact ⟨clamp01_nonneg _, clamp01_le_one _⟩
  · exact ⟨clamp01_nonneg _, clamp01_le_one _⟩
  · dsimp only
    by_cases hba : b = a
    · rw [if_pos hba]; norm_num
    · rw [if_neg hba]
      have h0 := clamp01_nonneg ((v - a) / (b - a))
      have h1 := clamp01_le_one ((v - a) / (b - a))
      by_cases hdir : dir = Direction.minimize
      · rw [if_pos hdir]; constructor <;> linarith
      · rw [if_neg hdir]; exact ⟨h0, h1⟩

/-- With both bounds present and `min < max`, the pre-inversion normalized
value is weakly monotone in the raw value. -/
theorem normalizeValue_base_mono {a b v1 v2 : ℚ} (hab : a < b) (h : v1 ≤ v2) :
    fmax 0 (fmin 1 ((v1 - a) / (b - a))) ≤ fmax 0 (fmin 1 ((v2 - a) / (b - a))) := by
  apply clamp01_mono
  apply div_le_div_of_nonneg_right _ (by linarith)
  linarith

/-- Within the declared bounds the clamp is the identity on the ratio. -/
theorem normalizeValue_base_eq {a b v : ℚ} (hab : a < b) (hlo : a ≤ v) (hhi : v ≤ b) :
    fmax 0 (fmin 1 ((v - a) / (b - a))) = (v - a) / (b - a) := by
  apply clamp01_eq_self
  · apply div_nonneg (by linarith) (by linarith)
  · rw [div_le_one (by linarith)]; linarith

/-- C1: for every resolved schema and non-empty site-data map,
`DefaultScoreFunc` succeeds and returns a final score with
`0 ≤ finalScore ≤ 100` — whatever the raw field values, since every
per-field normalization clamps to [0,1] (last conjunct) and the final score
is clamped to [0,100] — and the final score is exactly 0 when no field
contributed (`totalMaxPossible = 0`). -/
theorem c1_finalScore_bounded (d : List (String × Value)) (s : ResolvedSchema)
    (hd : d.length ≠ 0) :
    ∃ out, DefaultScoreFunc d (some s) = Except.ok out ∧
      0 ≤ out.finalScore ∧ out.finalScore ≤ 100 ∧
      ((scoreLoop d s).maxPossibleScore = 0 → out.finalScore = 0) ∧
      (∀ v lo hi dir, 0 ≤ normalizeValue v lo hi dir ∧ normalizeValue v lo hi dir ≤ 1) := by
  unfold DefaultScoreFunc
  dsimp only
  rw [if_neg hd]
  refine ⟨_, rfl, ?_, ?_, ?_, fun v lo hi dir => normalizeValue_mem_unit v lo hi dir⟩
  · rw [fmax_eq_max]
    exact le_max_left 0 _
  · rw [fmax_eq_max, fmin_eq_min]
    exact max_le (by norm_num) (min_le_left 100 _)
  · intro h
    rw [h]
    norm_num [fmax, fmin]

/-- Witness for C1 at a concrete schema and record: a percentage field with
bounds [0,80] and a value of 150 far above the declared max. -/
theorem c1_witness :
    ([(("m" : String), Value.num 150)] : List (String × Value)).length ≠ 0 ∧
    ∃ out, DefaultScoreFunc [("m", Value.num 150)]
        (some ⟨[("m", ⟨FieldType.percentage, true, some 0, some 80, 1,
          Direction.maximize, ""⟩)], "site_id", [("m", 1)]⟩) = Except.ok out ∧
      0 ≤ out.finalScore ∧ out.finalScore ≤ 100 ∧
      ((scoreLoop [("m", Value.num 150)]
          ⟨[("m", ⟨FieldType.percentage, true, some 0, some 80, 1,
            Direction.maximize, ""⟩)], "site_id", [("m", 1)]⟩).maxPossibleScore = 0 →
        out.finalScore = 0) ∧
      (∀ v lo hi dir, 0 ≤ normalizeValue v lo hi dir ∧ normalizeValue v lo hi dir ≤ 1) :=
  ⟨by decide, c1_finalScore_bounded _ _ (by decide)⟩

/-- C4 counterexample: the claim fails as stated, at two explicit inputs.
First input: a minimize-direction field with an absent min bound (the
value/100 fallback), values 10 and 50 — decreasing the value from 50 to 10
strictly DEcreases the normalized contribution (0.5 to 0.1), because the
fallback returns before the minimize inversion.  Second input: both bounds
present but reversed (min 100 > max 0) with maximize direction, values 10
and 50 — increasing the value strictly decreases the normalized value
(0.9 to 0.5). -/
theorem c4_counterexample :
    normalizeValue 10 none (some 100) Direction.minimize
      < normalizeValue 50 none (some 100) Direction.minimize ∧
    normalizeValue 50 (some 100) (some 0) Direction.maximize
      < normalizeValue 10 (some 100) (some 0) Direction.maximize := by
  have hd : ¬ Direction.maximize = Direction.minimize := by decide
  unfold normalizeValue
  norm_num [fmax, fmin, hd]

/-- C4 (amended): with both bounds present and `min < max`, decreasing a
minimize-direction value weakly increases its normalized contribution
(strictly when both values lie within the bounds), and increasing a
maximize-direction value does the same; with a bound absent, the value/100
fallback is weakly increasing in the raw value for BOTH directions (strictly
when both values lie in [0,100]) — it ignores the direction, so the claimed
behavior holds for maximize but is reversed for minimize. -/
theorem c4_direction_monotonicity (a b v1 v2 : ℚ) (lo hi : Option ℚ) (dir : Direction)
    (hab : a < b) (hfb : lo = none ∨ hi = none) :
    (v1 ≤ v2 → normalizeValue v1 (some a) (some b) Direction.maximize
      ≤ normalizeValue v2 (some a) (some b) Direction.maximize) ∧
    (a ≤ v1 → v1 < v2 → v2 ≤ b → normalizeValue v1 (some a) (some b) Direction.maximize
      < normalizeValue v2 (some a) (some b) Direction.maximize) ∧
    (v1 ≤ v2 → normalizeValue v2 (some a) (some b) Direction.minimize
      ≤ normalizeValue v1 (some a) (some b) Direction.minimize) ∧
    (a ≤ v1 → v1 < v2 → v2 ≤ b → normalizeValue v2 (some a) (some b) Direction.minimize
      < normalizeValue v1 (some a) (some b) Direction.minimize) ∧
    (v1 ≤ v2 → normalizeValue v1 lo hi dir ≤ normalizeValue v2 lo hi dir) ∧
    (0 ≤ v1 → v1 < v2 → v2 ≤ 100 →
      normalizeValue v1 lo hi dir < normalizeValue v2 lo hi dir) := by
  have hba : ¬ b = a := ne_of_gt hab
  have hfallback : ∀ w : ℚ, normalizeValue w lo hi dir = fmax 0 (fmin 1 (w / 100)) := by
    intro w
    rcases hfb with h | h <;> subst h <;> unfold normalizeValue
    · rfl
    · rcases lo with _ | x <;> rfl
  have hdm : ¬ Direction.maximize = Direction.minimize := by decide
  have hmaxeq : ∀ w : ℚ, normalizeValue w (some a) (some b) Direction.maximize
      = fmax 0 (fmin 1 ((w - a) / (b - a))) := by
    intro w
    unfold normalizeValue
    dsimp only
    rw [if_neg hba, if_neg hdm]
  have hmineq : ∀ w : ℚ, normalizeValue w (some a) (some b) Direction.minimize
      = 1 - fmax 0 (fmin 1 ((w - a) / (b - a))) := by
    intro w
    unfold normalizeValue
    dsimp only
    rw [if_neg hba]
    norm_num
  refine ⟨?_, ?_, ?_, ?_, ?_, ?_⟩
  · intro h
    rw [hmaxeq, hmaxeq]
    exact normalizeValue_base_mono hab h
  · intro h1 h2 h3
    rw [hmaxeq, hmaxeq, normalizeValue_base_eq hab h1 (by linarith),
      normalizeValue_base_eq hab (by linarith) h3]
    apply div_lt_div_of_pos_right _ (by linarith)
    linarith
  · intro h
    rw [hmineq, hmineq]
    have := normalizeValue_base_mono hab h
    linarith
  · intro h1 h2 h3
    rw [hmineq, hmineq, normalizeValue_base_eq hab h1 (by linarith),
      normalizeValue_base_eq hab (by linarith) h3]
    have : (v1 - a) / (b - a) < (v2 - a) / (b - a) := by
      apply div_lt_div_of_pos_right _ (by linarith)
      linarith
    linarith
  · intro h
    rw [hfallback, hfallback]
    apply clamp01_mono
    apply div_le_div_of_nonneg_right h (by norm_num)
  · intro h1 h2 h3
    rw [hfallback, hfallback,
      clamp01_eq_self (div_nonneg h1 (by norm_num)) (by rw [div_le_one] <;> linarith),
      clamp01_eq_self (div_nonneg (by linarith) (by norm_num))
        (by rw [div_le_one] <;> linarith)]
    apply div_lt_div_of_pos_right h2 (by norm_num)

/-- Witness for C4 (amended) at concrete bounds [0,100], values 10 and 50,
and a fallback field with an absent min bound. -/
theorem c4_witness :
    (0 : ℚ) < 100 ∧ ((none : Option ℚ) = none ∨ (some (100:ℚ)) = none) ∧
    ((10 : ℚ) ≤ 50 → normalizeValue 10 (some 0) (some 100) Direction.maximize
      ≤ normalizeValue 50 (some 0) (some 100) Direction.maximize) ∧
    ((0 : ℚ) ≤ 10 → (10 : ℚ) < 50 → (50 : ℚ) ≤ 100 →
      normalizeValue 10 (some 0) (some 100) Direction.maximize
      < normalizeValue 50 (some 0) (some 100) Direction.maximize) ∧
    ((10 : ℚ) ≤ 50 → normalizeValue 50 (some 0) (some 100) Direction.minimize
      ≤ normalizeValue 10 (some 0) (some 100) Direction.minimize) ∧
    ((0 : ℚ) ≤ 10 → (10 : ℚ) < 50 → (50 : ℚ) ≤ 100 →
      normalizeValue 50 (some 0) (some 100) Direction.minimize
      < normalizeValue 10 (some 0) (some 100) Direction.minimize) ∧
    ((10 : ℚ) ≤ 50 → normalizeValue 10 none (some 100) Direction.minimize
      ≤ normalizeValue 50 none (some 100) Direction.minimize) ∧
    ((0 : ℚ) ≤ 10 → (10 : ℚ) < 50 → (50 : ℚ) ≤ 100 →
      normalizeValue 10 none (some 100) Direction.minimize
      < normalizeValue 50 none (some 100) Direction.minimize) := by
  have h := c4_direction_monotonicity 0 100 10 50 none (some 100) Direction.minimize
    (by norm_num) (Or.inl rfl)
  exact ⟨by norm_num, Or.inl rfl, h.1, h.2.1, h.2.2.1, h.2.2.2.1, h.2.2.2.2.1, h.2.2.2.2.2⟩

/-- Characterization of the per-field loop body: a field produces a factor
exactly when it has numeric type, non-zero embedded weight, non-zero
effective weight, a value present in the site data, and that value coerces
to a number — and then the factor is fully determined. -/
theorem factorOf_eq_some_iff (d : List (String × Value)) (w : List (String × ℚ))
    (p : String × FieldDef) (fac : ExplanationFactor) :
    factorOf d w p = some fac ↔
      (isNumericFieldType p.2.type = true ∧ p.2.weight ≠ 0 ∧ weightOf w p.1 ≠ 0 ∧
       ∃ v, lookupKV d p.1 = some v ∧ ∃ q, toFloat64 v = some q ∧
         fac = { name := p.1
                 value := q
                 weight := weightOf w p.1
                 contribution :=
                   normalizeValue q p.2.min p.2.max p.2.direction * weightOf w p.1
                 direction :=
                   (if p.2.direction = Direction.minimize then "minimize" else "maximize")
                 reason := generateReasonString p.1
                   (normalizeValue q p.2.min p.2.max p.2.direction) p.2.direction }) := by
  unfold factorOf
  dsimp only
  by_cases h1 : ¬ isNumericFieldType p.2.type = true ∨ p.2.weight = 0
  · rw [if_pos h1]
    constructor
    · intro h
      cases h
    · rintro ⟨ha, hb, _⟩
      rcases h1 with h1 | h1
      · exact absurd ha h1
      · exact absurd h1 hb
  · rw [if_neg h1]
    push_neg at h1
    obtain ⟨hnum, hwt⟩ := h1
    by_cases h2 : weightOf w p.1 = 0
    · rw [if_pos h2]
      constructor
      · intro h
        cases h
      · rintro ⟨_, _, hw, _⟩
        exact absurd h2 hw
    · rw [if_neg h2]
      rcases hl : lookupKV d p.1 with _ | rawValue
      · constructor
        · intro h
          cases h
        · rintro ⟨_, _, _, v, hv, _⟩
          cases hv
      · rcases ht : toFloat64 rawValue with _ | numValue
        · constructor
          · intro h
            dsimp only at h
            rw [ht] at h
            cases h
          · rintro ⟨_, _, _, v, hv, q, hq, _⟩
            cases hv
            rw [ht] at hq
            cases hq
        · constructor
          · intro h
            dsimp only at h
            rw [ht] at h
            refine ⟨hnum, hwt, h2, rawValue, rfl, numValue, ht, ?_⟩
            cases h
            rfl
          · rintro ⟨_, _, _, v, hv, q, hq, hfac⟩
            cases hv
            rw [ht] at hq
            cases hq
            dsimp only
            rw [ht, hfac]

/-- C10: when a field's min and max bounds are both present and equal,
`normalizeValue` returns exactly 0.5 for every value and both directions
(the guard returns before clamping and the minimize inversion), and such a
field, when it produces a factor at all, contributes exactly
`0.5 × effectiveWeight` regardless of its value. -/
theorem c10_equal_bounds_half (v bound : ℚ) (dir : Direction)
    (d : List (String × Value)) (w : List (String × ℚ)) (f : String) (fd : FieldDef)
    (hmin : fd.min = some bound) (hmax : fd.max = some bound) :
    normalizeValue v fd.min fd.max dir = 1/2 ∧
    (∀ fac, factorOf d w (f, fd) = some fac →
      fac.contribution = 1/2 * weightOf w f) := by
  have hnv : ∀ x : ℚ, ∀ dir2 : Direction, normalizeValue x fd.min fd.max dir2 = 1/2 := by
    intro x dir2
    rw [hmin, hmax]
    unfold normalizeValue
    dsimp only
    rw [if_pos rfl]
  refine ⟨hnv v dir, ?_⟩
  intro fac hfac
  rw [factorOf_eq_some_iff] at hfac
  obtain ⟨_, _, _, v2, _, q, _, hfac⟩ := hfac
  rw [hfac]
  dsimp only
  rw [hnv q fd.direction]

/-- Witness for C10 at a concrete field with bounds both 7, value 42,
minimize direction, effective weight 3. -/
theorem c10_witness :
    (⟨FieldType.numeric, true, some 7, some 7, 1, Direction.minimize, ""⟩ :
        FieldDef).min = some 7 ∧
    (⟨FieldType.numeric, true, some 7, some 7, 1, Direction.minimize, ""⟩ :
        FieldDef).max = some 7 ∧
    normalizeValue 42 (some 7) (some 7) Direction.minimize = 1/2 ∧
    (∀ fac, factorOf [("f", Value.num 42)] [("f", 3)]
        ("f", ⟨FieldType.numeric, true, some 7, some 7, 1, Direction.minimize, ""⟩) =
        some fac →
      fac.contribution = 1/2 * weightOf [("f", 3)] "f") := by
  have h := c10_equal_bounds_half 42 7 Direction.minimize [("f", Value.num 42)]
    [("f", 3)] "f" ⟨FieldType.numeric, true, some 7, some 7, 1, Direction.minimize, ""⟩
    rfl rfl
  exact ⟨rfl, rfl, h.1, h.2⟩

theorem lookupKV_eq_of_mem {α : Type} {l : List (String × α)} (hnd : nodupKeys l)
    {k : String} {x : α} (h : (k, x) ∈ l) : lookupKV l k = some x := by
  induction l with
  | nil => cases h
  | cons p rest ih =>
    have hnd' : (p.1 :: rest.map Prod.fst).Nodup := hnd
    rcases List.mem_cons.mp h with h1 | h1
    · rw [← h1]
      unfold lookupKV
      rw [if_pos rfl]
    · unfold lookupKV
      have hk : ¬ p.1 = k := by
        intro he
        have hmem : k ∈ rest.map Prod.fst := List.mem_map.mpr ⟨(k, x), h1, rfl⟩
        have hnotin := (List.nodup_cons.mp hnd').1
        rw [he] at hnotin
        exact hnotin hmem
      rw [if_neg hk]
      exact ih (List.nodup_cons.mp hnd').2 h1

theorem foldl_processField_factors (d : List (String × Value))
    (w : List (String × ℚ)) (l : List (String × FieldDef)) (st : ScoreState) :
    (l.foldl (processField d w) st).factors = st.factors ++ l.filterMap (factorOf d w) := by
  induction l generalizing st with
  | nil => simp
  | cons p rest ih =>
    rw [List.foldl_cons, List.filterMap_cons]
    cases h : factorOf d w p with
    | none =>
      rw [show processField d w st p = st by unfold processField; rw [h], ih]
    | some fac =>
      rw [show processField d w st p =
          { factors := st.factors ++ [fac]
            totalWeightedScore := st.totalWeightedScore + fac.contribution
            totalWeight := st.totalWeight + fac.weight
            maxPossibleScore := st.maxPossibleScore + fac.weight } by
        unfold processField; rw [h], ih]
      simp

theorem scoreLoop_factors (d : List (String × Value)) (s : ResolvedSchema) :
    (scoreLoop d s).factors = s.fields.filterMap (factorOf d s.weights) := by
  unfold scoreLoop
  rw [foldl_processField_factors]
  rfl

theorem factorOf_name (d : List (String × Value)) (w : List (String × ℚ))
    (p : String × FieldDef) (fac : ExplanationFactor)
    (h : factorOf d w p = some fac) : fac.name = p.1 := by
  obtain ⟨_, _, _, v, _, q, _, hfac⟩ := (factorOf_eq_some_iff d w p fac).mp h
  rw [hfac]

/-- C3 (amended): for a field `(f, fd)` of the resolved schema and a
non-empty record, `DefaultScoreFunc` never errors, and the field appears in
the explanation factor list if and only if its type is numeric, its
EMBEDDED FieldDef weight is non-zero (an extra condition the code checks
before the effective weight), its effective weight is non-zero, the field is
present in the record, and the value coerces to a number; when it does
appear, its contribution is `normalizedValue × effectiveWeight`. -/
theorem c3_factor_conditions (d : List (String × Value)) (s : ResolvedSchema)
    (f : String) (fd : FieldDef) (hd : d.length ≠ 0) (hmem : (f, fd) ∈ s.fields)
    (hnd : nodupKeys s.fields) :
    ∃ out, DefaultScoreFunc d (some s) = Except.ok out ∧
      ((∃ fac ∈ out.explanation.factors, fac.name = f) ↔
        (isNumericFieldType fd.type = true ∧ fd.weight ≠ 0 ∧
         weightOf s.weights f ≠ 0 ∧
         ∃ v, lookupKV d f = some v ∧ ∃ q, toFloat64 v = some q)) ∧
      (∀ fac ∈ out.explanation.factors, fac.name = f → ∀ v q,
        lookupKV d f = some v → toFloat64 v = some q →
        fac.contribution =
          normalizeValue q fd.min fd.max fd.direction * weightOf s.weights f) := by
  have hfd : lookupKV s.fields f = some fd := lookupKV_eq_of_mem hnd hmem
  have hmemfac : ∀ fac, fac ∈ List.insertionSort
      (fun a b => |a.contribution| > |b.contribution|) (scoreLoop d s).factors ↔
      factorOf d s.weights (f, fd) = some fac ∨
        ∃ p ∈ s.fields, p.1 ≠ f ∧ factorOf d s.weights p = some fac := by
    intro fac
    rw [(List.perm_insertionSort _ _).mem_iff, scoreLoop_factors, List.mem_filterMap]
    constructor
    · rintro ⟨p, hp, hfac⟩
      by_cases hpf : p.1 = f
      · left
        have hp2 : (f, p.2) ∈ s.fields := by rw [← hpf]; exact hp
        have := lookupKV_eq_of_mem hnd hp2
        rw [hfd] at this
        cases this
        rw [← hpf]
        exact hfac
      · right
        exact ⟨p, hp, hpf, hfac⟩
    · rintro (hfac | ⟨p, hp, _, hfac⟩)
      · exact ⟨(f, fd), hmem, hfac⟩
      · exact ⟨p, hp, hfac⟩
  unfold DefaultScoreFunc
  dsimp only
  rw [if_neg hd]
  refine ⟨_, rfl, ?_, ?_⟩
  · constructor
    · rintro ⟨fac, hin, hname⟩
      rcases (hmemfac fac).mp hin with hfac | ⟨p, _, hpf, hfac⟩
      · obtain ⟨hnum, hw, hwe, v, hv, q, hq, _⟩ :=
          (factorOf_eq_some_iff d s.weights (f, fd) fac).mp hfac
        exact ⟨hnum, hw, hwe, v, hv, q, hq⟩
      · have := factorOf_name d s.weights p fac hfac
        rw [hname] at this
        exact absurd this.symm hpf
    · rintro ⟨hnum, hw, hwe, v, hv, q, hq⟩
      refine ⟨{ name := f, value := q, weight := weightOf s.weights f
                contribution :=
                  normalizeValue q fd.min fd.max fd.direction * weightOf s.weights f
                direction :=
                  (if fd.direction = Direction.minimize then "minimize" else "maximize")
                reason := generateReasonString f
                  (normalizeValue q fd.min fd.max fd.direction) fd.direction }, ?_, rfl⟩
      apply (hmemfac _).mpr
      left
      exact (factorOf_eq_some_iff d s.weights (f, fd) _).mpr
        ⟨hnum, hw, hwe, v, hv, q, hq, rfl⟩
  · intro fac hin hname v q hv hq
    rcases (hmemfac fac).mp hin with hfac | ⟨p, _, hpf, hfac⟩
    · obtain ⟨_, _, _, v2, hv2, q2, hq2, hfac2⟩ :=
        (factorOf_eq_some_iff d s.weights (f, fd) fac).mp hfac
      rw [hv] at hv2
      cases hv2
      rw [hq] at hq2
      cases hq2
      rw [hfac2]
    · have := factorOf_name d s.weights p fac hfac
      rw [hname] at this
      exact absurd this.symm hpf

/-- C3 counterexample: the claim as stated is false.  The field `x` has
numeric type, a non-zero EFFECTIVE weight (`Weights[x] = 2`), is present in
the record, and its value coerces — all of the claim's conditions hold — yet
it produces no explanation factor and no contribution, because its embedded
FieldDef weight is 0 and the loop also skips on that. -/
theorem c3_counterexample :
    isNumericFieldType
      (⟨FieldType.numeric, false, none, none, 0, Direction.maximize, ""⟩ :
        FieldDef).type = true ∧
    weightOf [("x", 2)] "x" = 2 ∧
    lookupKV [("x", Value.num 5)] "x" = some (Value.num 5) ∧
    toFloat64 (Value.num 5) = some 5 ∧
    DefaultScoreFunc [("x", Value.num 5)]
      (some ⟨[("x", ⟨FieldType.numeric, false, none, none, 0,
        Direction.maximize, ""⟩)], "id", [("x", 2)]⟩) =
      Except.ok ⟨0, 0, ⟨[]⟩⟩ := by decide

/-- Witness for C3 (amended) at a concrete one-field schema and record. -/
theorem c3_witness :
    ([(("u" : String), Value.num 25)] : List (String × Value)).length ≠ 0 ∧
    (("u", (⟨FieldType.percentage, true, some 0, some 100, 2,
        Direction.maximize, ""⟩ : FieldDef)) ∈
      (⟨[("u", ⟨FieldType.percentage, true, some 0, some 100, 2,
        Direction.maximize, ""⟩)], "site_id", [("u", 2)]⟩ : ResolvedSchema).fields) ∧
    nodupKeys (⟨[("u", ⟨FieldType.percentage, true, some 0, some 100, 2,
        Direction.maximize, ""⟩)], "site_id", [("u", 2)]⟩ : ResolvedSchema).fields ∧
    ∃ out, DefaultScoreFunc [("u", Value.num 25)]
        (some ⟨[("u", ⟨FieldType.percentage, true, some 0, some 100, 2,
          Direction.maximize, ""⟩)], "site_id", [("u", 2)]⟩) = Except.ok out ∧
      ((∃ fac ∈ out.explanation.factors, fac.name = "u") ↔
        (isNumericFieldType FieldType.percentage = true ∧ (2 : ℚ) ≠ 0 ∧
         weightOf [("u", 2)] "u" ≠ 0 ∧
         ∃ v, lookupKV [("u", Value.num 25)] "u" = some v ∧
           ∃ q, toFloat64 v = some q)) ∧
      (∀ fac ∈ out.explanation.factors, fac.name = "u" → ∀ v q,
        lookupKV [("u", Value.num 25)] "u" = some v → toFloat64 v = some q →
        fac.contribution =
          normalizeValue q (some 0) (some 100) Direction.maximize *
            weightOf [("u", 2)] "u") :=
  ⟨by decide, by decide, by simp [nodupKeys],
    c3_factor_conditions [("u", Value.num 25)]
      ⟨[("u", ⟨FieldType.percentage, true, some 0, some 100, 2,
        Direction.maximize, ""⟩)], "site_id", [("u", 2)]⟩ "u"
      ⟨FieldType.percentage, true, some 0, some 100, 2, Direction.maximize, ""⟩
      (by decide) (by decide) (by simp [nodupKeys])⟩

theorem lookupKV_nil {α : Type} (k : String) : lookupKV ([] : List (String × α)) k = none := rfl

theorem lookupKV_cons {α : Type} (p : String × α) (rest : List (String × α)) (k : String) :
    lookupKV (p :: rest) k = if p.1 = k then some p.2 else lookupKV rest k := rfl

theorem lookupKV_map_set {α : Type} (m : List (String × α)) (k : String) (v : α) :
    lookupKV (m.map (fun p => if p.1 = k then (k, v) else p)) k =
      (lookupKV m k).map (fun _ => v) := by
  induction m with
  | nil => rfl
  | cons p rest ih =>
    by_cases h : p.1 = k
    · rw [List.map_cons, if_pos h]
      unfold lookupKV
      rw [if_pos rfl, if_pos h]
      rfl
    · rw [List.map_cons, if_neg h]
      unfold lookupKV
      rw [if_neg h, if_neg h]
      exact ih

theorem lookupKV_map_set_ne {α : Type} (m : List (String × α)) (k k2 : String) (v : α)
    (hne : k2 ≠ k) :
    lookupKV (m.map (fun p => if p.1 = k then (k, v) else p)) k2 = lookupKV m k2 := by
  induction m with
  | nil => rfl
  | cons p rest ih =>
    by_cases h : p.1 = k
    · rw [List.map_cons, if_pos h]
      unfold lookupKV
      rw [if_neg (fun he => hne he.symm), if_neg (by rw [h]; exact fun he => hne he.symm)]
      exact ih
    · rw [List.map_cons, if_neg h]
      unfold lookupKV
      by_cases h2 : p.1 = k2
      · rw [if_pos h2, if_pos h2]
      · rw [if_neg h2, if_neg h2]
        exact ih

theorem lookupKV_append {α : Type} (m1 m2 : List (String × α)) (k : String) :
    lookupKV (m1 ++ m2) k =
      match lookupKV m1 k with
      | some v => some v
      | none => lookupKV m2 k := by
  induction m1 with
  | nil => rfl
  | cons p rest ih =>
    rw [List.cons_append, lookupKV_cons, lookupKV_cons]
    by_cases h : p.1 = k
    · rw [if_pos h, if_pos h]
    · rw [if_neg h, if_neg h]
      exact ih

theorem lookupKV_setKV_self {α : Type} (m : List (String × α)) (k : String) (v : α) :
    lookupKV (setKV m k v) k = some v := by
  unfold setKV
  cases h : lookupKV m k with
  | some w =>
    rw [lookupKV_map_set, h]
    rfl
  | none =>
    rw [lookupKV_append, h]
    rw [lookupKV_cons, if_pos rfl]

theorem lookupKV_setKV_ne {α : Type} (m : List (String × α)) (k k2 : String) (v : α)
    (hne : k2 ≠ k) : lookupKV (setKV m k v) k2 = lookupKV m k2 := by
  unfold setKV
  cases h : lookupKV m k with
  | some w => rw [lookupKV_map_set_ne m k k2 v hne]
  | none =>
    rw [lookupKV_append]
    cases h2 : lookupKV m k2 with
    | some w => rfl
    | none =>
      rw [lookupKV_cons, if_neg (fun he => hne he.symm), lookupKV_nil]

theorem lookupKV_eq_none_of_not_mem {α : Type} (l : List (String × α)) (k : String)
    (h : k ∉ l.map Prod.fst) : lookupKV l k = none := by
  induction l with
  | nil => rfl
  | cons p rest ih =>
    unfold lookupKV
    rw [List.map_cons, List.mem_cons, not_or] at h
    rw [if_neg (fun he => h.1 he.symm)]
    exact ih h.2

theorem lookupKV_foldl_setKV_not_mem {α β : Type} (g : β → α)
    (l : List (String × β)) (m : List (String × α)) (k : String)
    (h : k ∉ l.map Prod.fst) :
    lookupKV (l.foldl (fun acc p => setKV acc p.1 (g p.2)) m) k = lookupKV m k := by
  induction l generalizing m with
  | nil => rfl
  | cons p rest ih =>
    rw [List.map_cons, List.mem_cons, not_or] at h
    rw [List.foldl_cons, ih _ h.2, lookupKV_setKV_ne _ _ _ _ h.1]

theorem lookupKV_foldl_setKV {α β : Type} (g : β → α)
    (l : List (String × β)) (m : List (String × α)) (k : String)
    (hnd : nodupKeys l) :
    lookupKV (l.foldl (fun acc p => setKV acc p.1 (g p.2)) m) k =
      match lookupKV l k with
      | some b => some (g b)
      | none => lookupKV m k := by
  induction l generalizing m with
  | nil => rfl
  | cons p rest ih =>
    have hnd' : (p.1 :: rest.map Prod.fst).Nodup := hnd
    rw [List.foldl_cons]
    by_cases h : p.1 = k
    · subst h
      have hnotin : p.1 ∉ rest.map Prod.fst := (List.nodup_cons.mp hnd').1
      rw [lookupKV_foldl_setKV_not_mem g rest _ p.1 hnotin, lookupKV_setKV_self,
        lookupKV_cons, if_pos rfl]
    · rw [ih _ (List.nodup_cons.mp hnd').2, lookupKV_setKV_ne _ _ _ _ (fun he => h he.symm),
        lookupKV_cons, if_neg h]

theorem resolveFold_proj (l : List (String × FieldDef)) (r : ResolvedSchema) :
    l.foldl (fun resolved p =>
      { resolved with
          fields := setKV resolved.fields p.1 p.2
          weights := setKV resolved.weights p.1 p.2.weight }) r =
    { fields := l.foldl (fun acc p => setKV acc p.1 p.2) r.fields
      siteIDColumn := r.siteIDColumn
      weights := l.foldl (fun acc p => setKV acc p.1 p.2.weight) r.weights } := by
  induction l generalizing r with
  | nil => rfl
  | cons p rest ih =>
    rw [List.foldl_cons, List.foldl_cons, List.foldl_cons, ih]

theorem applyWeightOverrides_ok (wl : List (String × ℚ)) (r r2 : ResolvedSchema)
    (hnd : nodupKeys wl) (h : applyWeightOverrides r wl = Except.ok r2) :
    r2.fields = r.fields ∧
    ∀ k, lookupKV r2.weights k =
      match lookupKV wl k with
      | some w => some w
      | none => lookupKV r.weights k := by
  induction wl generalizing r with
  | nil =>
    unfold applyWeightOverrides at h
    cases h
    exact ⟨rfl, fun k => rfl⟩
  | cons p rest ih =>
    obtain ⟨name, w⟩ := p
    unfold applyWeightOverrides at h
    have hnd' : (name :: rest.map Prod.fst).Nodup := hnd
    cases hl : lookupKV r.fields name with
    | none =>
      rw [hl] at h
      cases h
    | some fd =>
      rw [hl] at h
      obtain ⟨hf, hw⟩ := ih { r with weights := setKV r.weights name w }
        (List.nodup_cons.mp hnd').2 h
      refine ⟨hf, fun k => ?_⟩
      rw [hw k, lookupKV_cons]
      by_cases hk : name = k
      · subst hk
        have hrest : lookupKV rest name = none :=
          lookupKV_eq_none_of_not_mem rest name (List.nodup_cons.mp hnd').1
        rw [hrest, if_pos rfl]
        exact lookupKV_setKV_self r.weights name w
      · rw [if_neg hk]
        cases hr : lookupKV rest k with
        | some w2 => rfl
        | none => exact lookupKV_setKV_ne r.weights name k w (fun he => hk he.symm)

/-- C2: for every field name in the merged field set, the effective weight
in the `Resolve` result follows the three precedence layers, highest first:
a tenant standalone `weights` entry, then the weight embedded in a
tenant-declared field definition, then the global field definition's
embedded weight. -/
theorem c2_weight_precedence (g : GlobalSchemaConfig) (t : TenantSchemaOverride)
    (r : ResolvedSchema) (hg : nodupKeys g.fields) (htf : nodupKeys t.fields)
    (htw : nodupKeys t.weights) (hok : Resolve g (some t) = Except.ok r)
    (f : String) (hf : (lookupKV r.fields f).isSome) :
    lookupKV r.weights f =
      match lookupKV t.weights f with
      | some w => some w
      | none =>
        match lookupKV t.fields f with
        | some fd => some fd.weight
        | none => Option.map (fun fd => fd.weight) (lookupKV g.fields f) := by
  unfold Resolve at hok
  by_cases hs1 : g.siteIDColumn = ""
  · rw [if_pos hs1] at hok
    cases hok
  rw [if_neg hs1] at hok
  by_cases hs2 : g.fields.length = 0
  · rw [if_pos hs2] at hok
    cases hok
  rw [if_neg hs2] at hok
  dsimp only at hok
  obtain ⟨_, hw⟩ := applyWeightOverrides_ok t.weights _ r htw hok
  rw [hw f]
  cases htwf : lookupKV t.weights f with
  | some w => rfl
  | none =>
    have h2 : (applyTenantFields
        { copyGlobalFields g with
            siteIDColumn := t.siteIDColumn.getD (copyGlobalFields g).siteIDColumn }
        t.fields).weights =
        t.fields.foldl (fun acc p => setKV acc p.1 p.2.weight)
          (copyGlobalFields g).weights := by
      unfold applyTenantFields
      rw [resolveFold_proj]
    dsimp only
    rw [h2, lookupKV_foldl_setKV (fun fd => fd.weight) t.fields _ f htf]
    cases htff : lookupKV t.fields f with
    | some fd => rfl
    | none =>
      have h3 : (copyGlobalFields g).weights =
          g.fields.foldl (fun acc p => setKV acc p.1 p.2.weight) [] := by
        unfold copyGlobalFields
        rw [resolveFold_proj]
      dsimp only
      rw [h3, lookupKV_foldl_setKV (fun fd => fd.weight) g.fields _ f hg]
      cases hgf : lookupKV g.fields f with
      | some fd => rfl
      | none => rfl

/-- Witness for C2 at a concrete global config (field `p`, embedded weight
1.5; field `q`, embedded weight 1) and tenant override (redeclares `p` with
embedded weight 4 and also sets a standalone weight 7 for `p`): the
standalone entry wins for `p`, the global embedded weight survives for `q`. -/
theorem c2_witness :
    nodupKeys [("p", (⟨FieldType.numeric, true, none, none, 3/2,
        Direction.maximize, ""⟩ : FieldDef)),
      ("q", ⟨FieldType.numeric, true, none, none, 1, Direction.maximize, ""⟩)] ∧
    ∃ r, Resolve
        ⟨[("p", ⟨FieldType.numeric, true, none, none, 3/2, Direction.maximize, ""⟩),
          ("q", ⟨FieldType.numeric, true, none, none, 1, Direction.maximize, ""⟩)],
         "site_id"⟩
        (some ⟨[("p", ⟨FieldType.numeric, true, none, none, 4,
          Direction.maximize, ""⟩)], none, [("p", 7)]⟩) = Except.ok r ∧
      lookupKV r.weights "p" = some 7 ∧ lookupKV r.weights "q" = some 1 ∧
      (lookupKV r.fields "p").isSome ∧
      lookupKV r.weights "p" =
        match lookupKV [(("p" : String), (7 : ℚ))] "p" with
        | some w => some w
        | none => none := by
  constructor
  · simp [nodupKeys]
  refine ⟨_, rfl, by decide, by decide, by decide, ?_⟩
  have h := c2_weight_precedence
    ⟨[("p", ⟨FieldType.numeric, true, none, none, 3/2, Direction.maximize, ""⟩),
      ("q", ⟨FieldType.numeric, true, none, none, 1, Direction.maximize, ""⟩)],
     "site_id"⟩
    ⟨[("p", ⟨FieldType.numeric, true, none, none, 4, Direction.maximize, ""⟩)],
     none, [("p", 7)]⟩
    _ (by simp [nodupKeys]) (by simp [nodupKeys]) (by simp [nodupKeys]) rfl
    "p" (by decide)
  rw [h]
  rfl

theorem fscore_eq_get (l : List Recommendation) (k : Nat) (h : k < l.length) :
    fscore l k = (l.get ⟨k, h⟩).finalScore := by
  unfold fscore
  rw [List.getElem?_eq_getElem h]
  rfl

theorem fscore_set_ne (l : List Recommendation) (n k : Nat) (a : Recommendation)
    (h : n ≠ k) : fscore (l.set n a) k = fscore l k := by
  unfold fscore
  rw [List.getElem?_set_ne h]

theorem fscore_set_self (l : List Recommendation) (n : Nat) (a : Recommendation)
    (h : n < l.length) : fscore (l.set n a) n = a.finalScore := by
  unfold fscore
  rw [List.getElem?_set_eq_of_lt a h]

theorem sortInner_length (fuel : Nat) :
    ∀ (recs : List Recommendation) (i j : Nat),
      (sortInner fuel recs i j).length = recs.length := by
  induction fuel with
  | zero => intro recs i j; rfl
  | succ f ih =>
    intro recs i j
    unfold sortInner
    by_cases hj : j < recs.length
    · rw [dif_pos hj]
      by_cases hi : i < recs.length
      · rw [dif_pos hi]
        dsimp only
        by_cases hc : (recs.get ⟨j, hj⟩).finalScore > (recs.get ⟨i, hi⟩).finalScore
        · rw [if_pos hc, ih]
          simp [List.length_set]
        · rw [if_neg hc, ih]
      · rw [dif_neg hi]
    · rw [dif_neg hj]

theorem sortInner_frozen (fuel : Nat) :
    ∀ (recs : List Recommendation) (i j k : Nat), k < j → k ≠ i →
      (sortInner fuel recs i j)[k]? = recs[k]? := by
  induction fuel with
  | zero => intro recs i j k _ _; rfl
  | succ f ih =>
    intro recs i j k hkj hki
    unfold sortInner
    by_cases hj : j < recs.length
    · rw [dif_pos hj]
      by_cases hi : i < recs.length
      · rw [dif_pos hi]
        dsimp only
        by_cases hc : (recs.get ⟨j, hj⟩).finalScore > (recs.get ⟨i, hi⟩).finalScore
        · rw [if_pos hc, ih _ i (j+1) k (by omega) hki,
            List.getElem?_set_ne (fun he => (by omega : k ≠ j) he.symm),
            List.getElem?_set_ne (fun he => hki he.symm)]
        · rw [if_neg hc, ih _ i (j+1) k (by omega) hki]
      · rw [dif_neg hi]
    · rw [dif_neg hj]

theorem sortInner_spec (fuel : Nat) :
    ∀ (recs : List Recommendation) (i j : Nat),
      i < j → recs.length ≤ j + fuel →
      fscore (sortInner fuel recs i j) i ≥ fscore recs i ∧
      (∀ k, j ≤ k → k < recs.length →
        fscore (sortInner fuel recs i j) i ≥ fscore (sortInner fuel recs i j) k) ∧
      (∀ k, i ≤ k → k < recs.length →
        ∃ m, i ≤ m ∧ m < recs.length ∧
          fscore (sortInner fuel recs i j) k = fscore recs m) := by
  induction fuel with
  | zero =>
    intro recs i j _ hfuel
    exact ⟨le_refl _, fun k hk1 hk2 => absurd hk2 (by omega),
      fun k hk1 hk2 => ⟨k, hk1, hk2, rfl⟩⟩
  | succ f ih =>
    intro recs i j hij hfuel
    unfold sortInner
    by_cases hj : j < recs.length
    case neg =>
      rw [dif_neg hj]
      exact ⟨le_refl _, fun k hk1 hk2 => absurd hk2 (by omega),
        fun k hk1 hk2 => ⟨k, hk1, hk2, rfl⟩⟩
    case pos =>
      have hi : i < recs.length := lt_trans hij hj
      rw [dif_pos hj, dif_pos hi]
      dsimp only
      have hji : j ≠ i := fun he => by omega
      by_cases hc : (recs.get ⟨j, hj⟩).finalScore > (recs.get ⟨i, hi⟩).finalScore
      · rw [if_pos hc]
        have hc' : fscore recs j > fscore recs i := by
          rw [fscore_eq_get recs j hj, fscore_eq_get recs i hi]
          exact hc
        have hlen2 : ((recs.set i (recs.get ⟨j, hj⟩)).set j (recs.get ⟨i, hi⟩)).length
            = recs.length := by
          simp [List.length_set]
        have hsi : fscore ((recs.set i (recs.get ⟨j, hj⟩)).set j (recs.get ⟨i, hi⟩)) i
            = fscore recs j := by
          rw [fscore_set_ne _ _ _ _ hji, fscore_set_self _ _ _ hi,
            fscore_eq_get recs j hj]
        have hsj : fscore ((recs.set i (recs.get ⟨j, hj⟩)).set j (recs.get ⟨i, hi⟩)) j
            = fscore recs i := by
          rw [fscore_set_self _ _ _ (by rw [List.length_set]; exact hj),
            fscore_eq_get recs i hi]
        have hother : ∀ k, k ≠ i → k ≠ j →
            fscore ((recs.set i (recs.get ⟨j, hj⟩)).set j (recs.get ⟨i, hi⟩)) k
              = fscore recs k := by
          intro k hki hkj
          rw [fscore_set_ne _ _ _ _ (fun he => hkj he.symm),
            fscore_set_ne _ _ _ _ (fun he => hki he.symm)]
        obtain ⟨ih1, ih2, ih3⟩ := ih ((recs.set i (recs.get ⟨j, hj⟩)).set j
          (recs.get ⟨i, hi⟩)) i (j+1) (by omega) (by rw [hlen2]; omega)
        have hfj : fscore (sortInner f ((recs.set i (recs.get ⟨j, hj⟩)).set j
            (recs.get ⟨i, hi⟩)) i (j+1)) j
            = fscore ((recs.set i (recs.get ⟨j, hj⟩)).set j (recs.get ⟨i, hi⟩)) j := by
          unfold fscore
          rw [sortInner_frozen f _ i (j+1) j (by omega) hji]
        refine ⟨?_, ?_, ?_⟩
        · rw [hsi] at ih1
          linarith
        · intro k hk1 hk2
          by_cases hkj : k = j
          · subst hkj
            rw [hfj, hsj]
            rw [hsi] at ih1
            linarith
          · exact ih2 k (by omega) (by rw [hlen2]; exact hk2)
        · intro k hk1 hk2
          obtain ⟨m, hm1, hm2, hm3⟩ := ih3 k hk1 (by rw [hlen2]; exact hk2)
          rw [hlen2] at hm2
          by_cases hmi : m = i
          · refine ⟨j, by omega, hj, ?_⟩
            rw [hm3, hmi, hsi]
          · by_cases hmj : m = j
            · refine ⟨i, le_refl i, hi, ?_⟩
              rw [hm3, hmj, hsj]
            · refine ⟨m, hm1, hm2, ?_⟩
              rw [hm3, hother m hmi hmj]
      · rw [if_neg hc]
        have hc' : fscore recs i ≥ fscore recs j := by
          rw [fscore_eq_get recs j hj, fscore_eq_get recs i hi]
          exact not_lt.mp hc
        obtain ⟨ih1, ih2, ih3⟩ := ih recs i (j+1) (by omega) (by omega)
        have hfj : fscore (sortInner f recs i (j+1)) j = fscore recs j := by
          unfold fscore
          rw [sortInner_frozen f recs i (j+1) j (by omega) hji]
        refine ⟨ih1, ?_, ih3⟩
        intro k hk1 hk2
        by_cases hkj : k = j
        · subst hkj
          rw [hfj]
          linarith
        · exact ih2 k (by omega) hk2

theorem sortOuter_spec (fuel : Nat) :
    ∀ (recs : List Recommendation) (i : Nat),
      recs.length ≤ i + fuel →
      (∀ k1 k2, k1 < i → k1 ≤ k2 → k2 < recs.length → fscore recs k1 ≥ fscore recs k2) →
      (sortOuter fuel recs i).length = recs.length ∧
      (∀ k1 k2, k1 ≤ k2 → k2 < recs.length →
        fscore (sortOuter fuel recs i) k1 ≥ fscore (sortOuter fuel recs i) k2) := by
  induction fuel with
  | zero =>
    intro recs i hfuel H
    exact ⟨rfl, fun k1 k2 h1 h2 => H k1 k2 (by omega) h1 h2⟩
  | succ f ih =>
    intro recs i hfuel H
    unfold sortOuter
    by_cases hi : i < recs.length
    case neg =>
      rw [if_neg hi]
      exact ⟨rfl, fun k1 k2 h1 h2 => H k1 k2 (by omega) h1 h2⟩
    case pos =>
      rw [if_pos hi]
      have hlen := sortInner_length recs.length recs i (i+1)
      obtain ⟨s1, s2, s3⟩ := sortInner_spec recs.length recs i (i+1) (by omega) (by omega)
      have hfrozen : ∀ k, k < i →
          fscore (sortInner recs.length recs i (i+1)) k = fscore recs k := by
        intro k hk
        unfold fscore
        rw [sortInner_frozen recs.length recs i (i+1) k (by omega) (by omega)]
      have H2 : ∀ k1 k2, k1 < i + 1 → k1 ≤ k2 →
          k2 < (sortInner recs.length recs i (i+1)).length →
          fscore (sortInner recs.length recs i (i+1)) k1
            ≥ fscore (sortInner recs.length recs i (i+1)) k2 := by
        intro k1 k2 h1 h2 h3
        rw [hlen] at h3
        by_cases hk1i : k1 = i
        · subst hk1i
          by_cases hk2i : k2 = k1
          · rw [hk2i]
          · exact s2 k2 (by omega) h3
        · have hk1 : k1 < i := by omega
          rw [hfrozen k1 hk1]
          by_cases hk2i : k2 = i
          · subst hk2i
            obtain ⟨m, hm1, hm2, hm3⟩ := s3 k2 (le_refl k2) hi
            rw [hm3]
            exact H k1 m hk1 (by omega) hm2
          · by_cases hk2lt : k2 < i
            · rw [hfrozen k2 hk2lt]
              exact H k1 k2 hk1 h2 h3
            · obtain ⟨m, hm1, hm2, hm3⟩ := s3 k2 (by omega) h3
              rw [hm3]
              exact H k1 m hk1 (by omega) hm2
      obtain ⟨o1, o2⟩ := ih (sortInner recs.length recs i (i+1)) (i+1)
        (by rw [hlen]; omega) H2
      constructor
      · rw [o1, hlen]
      · intro k1 k2 h1 h2
        exact o2 k1 k2 h1 (by rw [hlen]; exact h2)

theorem sortRecommendationsByScore_length (recs : List Recommendation) :
    (sortRecommendationsByScore recs).length = recs.length :=
  (sortOuter_spec recs.length recs 0 (by omega)
    (fun k1 _ h1 _ _ => absurd h1 (Nat.not_lt_zero k1))).1

theorem sortRecommendationsByScore_sorted (recs : List Recommendation) :
    ∀ k1 k2, k1 ≤ k2 → k2 < recs.length →
      fscore (sortRecommendationsByScore recs) k1
        ≥ fscore (sortRecommendationsByScore recs) k2 :=
  (sortOuter_spec recs.length recs 0 (by omega)
    (fun k1 _ h1 _ _ => absurd h1 (Nat.not_lt_zero k1))).2

theorem assignRankings_length (i : Nat) (l : List Recommendation) :
    (assignRankings i l).length = l.length := by
  induction l generalizing i with
  | nil => rfl
  | cons r rest ih =>
    unfold assignRankings
    rw [List.length_cons, List.length_cons, ih]

theorem assignRankings_map_ranking (i : Nat) (l : List Recommendation) :
    (assignRankings i l).map (fun r => r.ranking) = List.range' (i+1) l.length := by
  induction l generalizing i with
  | nil => rfl
  | cons r rest ih =>
    unfold assignRankings
    rw [List.map_cons, ih, List.length_cons]
    rfl

theorem fscore_assignRankings (i : Nat) (l : List Recommendation) (k : Nat) :
    fscore (assignRankings i l) k = fscore l k := by
  induction l generalizing i k with
  | nil => rfl
  | cons r rest ih =>
    cases k with
    | zero =>
      show fscore ({ r with ranking := i + 1 } :: assignRankings (i + 1) rest) 0
        = fscore (r :: rest) 0
      unfold fscore
      rw [List.getElem?_cons_zero, List.getElem?_cons_zero]
    | succ k =>
      show fscore ({ r with ranking := i + 1 } :: assignRankings (i + 1) rest) (k + 1)
        = fscore (r :: rest) (k + 1)
      unfold fscore
      rw [List.getElem?_cons_succ, List.getElem?_cons_succ]
      exact ih (i + 1) k

theorem rankResults_rankings (recs : List Recommendation) :
    (rankResults recs).map (fun r => r.ranking) = List.range' 1 recs.length := by
  unfold rankResults
  rw [assignRankings_map_ranking, sortRecommendationsByScore_length]

theorem rankResults_sorted (recs : List Recommendation) :
    ∀ k1 k2, k1 ≤ k2 → k2 < recs.length →
      fscore (rankResults recs) k1 ≥ fscore (rankResults recs) k2 := by
  intro k1 k2 h1 h2
  unfold rankResults
  rw [fscore_assignRankings, fscore_assignRankings]
  exact sortRecommendationsByScore_sorted recs k1 k2 h1 h2

theorem Execute_ok_nonempty (env : ExecEnv) (st : PipelineState)
    (g : GlobalSchemaConfig) (t : Option TenantSchemaOverride) (rsch : ResolvedSchema)
    (rs : List SiteRecord) (h1 : env.markRunningErr = none)
    (h2 : env.globalConfig = Except.ok (some g)) (h3 : env.tenantConfig = Except.ok t)
    (h4 : Resolve g t = Except.ok rsch) (h5 : env.createSnapshotErr = none)
    (h6 : env.siteRecords = Except.ok rs) (h7 : ¬ rs.length = 0)
    (h8 : env.bulkInsertErr = none) (h9 : env.finalUpdateErr = none) :
    Execute env st =
      ({ run := updateStatus (updateStatus st.run "running" none none none)
           "succeeded" (some (rankResults (scoreRecords rsch rs)).length) none
           (some env.elapsedMs)
         persisted := st.persisted ++ rankResults (scoreRecords rsch rs)
         bulkInsertCalls := st.bulkInsertCalls + 1 }, none) := by
  unfold Execute
  rw [h1]
  dsimp only
  rw [h2]
  dsimp only
  rw [h3]
  dsimp only
  rw [h4]
  dsimp only
  rw [h5]
  dsimp only
  rw [h6]
  dsimp only
  rw [if_neg h7, h8]
  dsimp only
  rw [h9]

theorem Execute_ok_empty (env : ExecEnv) (st : PipelineState)
    (g : GlobalSchemaConfig) (t : Option TenantSchemaOverride) (rsch : ResolvedSchema)
    (h1 : env.markRunningErr = none) (h2 : env.globalConfig = Except.ok (some g))
    (h3 : env.tenantConfig = Except.ok t) (h4 : Resolve g t = Except.ok rsch)
    (h5 : env.createSnapshotErr = none) (h6 : env.siteRecords = Except.ok [])
    (h9 : env.finalUpdateErr = none) :
    Execute env st =
      ({ st with run := (updateStatus (updateStatus st.run "running" none none none)
           "succeeded" (some 0) none (some env.elapsedMs)) }, none) := by
  unfold Execute
  rw [h1]
  dsimp only
  rw [h2]
  dsimp only
  rw [h3]
  dsimp only
  rw [h4]
  dsimp only
  rw [h5]
  dsimp only
  rw [h6]
  dsimp only
  rw [if_pos (show (List.length ([] : List SiteRecord)) = 0 from rfl), h9,
    if_pos (rfl : (none : Option String) = none)]

/-- C5: one successful `Execute` over a non-empty input set persists exactly
the ranked results: the persisted list is the scored results with dense
1-based rankings `[1, …, N]` (N the number of results actually scored)
assigned in non-increasing order of final score. -/
theorem c5_ranking_invariant (env : ExecEnv) (st : PipelineState)
    (g : GlobalSchemaConfig) (t : Option TenantSchemaOverride) (rsch : ResolvedSchema)
    (rs : List SiteRecord) (h1 : env.markRunningErr = none)
    (h2 : env.globalConfig = Except.ok (some g)) (h3 : env.tenantConfig = Except.ok t)
    (h4 : Resolve g t = Except.ok rsch) (h5 : env.createSnapshotErr = none)
    (h6 : env.siteRecords = Except.ok rs) (h7 : ¬ rs.length = 0)
    (h8 : env.bulkInsertErr = none) (h9 : env.finalUpdateErr = none) :
    (Execute env st).2 = none ∧
    (Execute env st).1.persisted = st.persisted ++ rankResults (scoreRecords rsch rs) ∧
    (rankResults (scoreRecords rsch rs)).map (fun r => r.ranking)
      = List.range' 1 (scoreRecords rsch rs).length ∧
    (∀ k1 k2, k1 ≤ k2 → k2 < (scoreRecords rsch rs).length →
      fscore (rankResults (scoreRecords rsch rs)) k1
        ≥ fscore (rankResults (scoreRecords rsch rs)) k2) := by
  rw [Execute_ok_nonempty env st g t rsch rs h1 h2 h3 h4 h5 h6 h7 h8 h9]
  exact ⟨rfl, rfl, rankResults_rankings _, rankResults_sorted _⟩

/-- Witness for C5 at a concrete environment: one global field, no tenant
override, two input records. -/
theorem c5_witness :
    (⟨none,
      Except.ok (some ⟨[("p", ⟨FieldType.numeric, true, some 0, some 10, 1,
        Direction.maximize, ""⟩)], "site_id"⟩),
      Except.ok none, none,
      Except.ok [⟨"s1", some [("p", Value.num 4)]⟩, ⟨"s2", some [("p", Value.num 8)]⟩],
      none, none, 0⟩ : ExecEnv).markRunningErr = none ∧
    ¬ ([(⟨"s1", some [("p", Value.num 4)]⟩ : SiteRecord),
        ⟨"s2", some [("p", Value.num 8)]⟩].length = 0) ∧
    ((Execute
      ⟨none,
        Except.ok (some ⟨[("p", ⟨FieldType.numeric, true, some 0, some 10, 1,
          Direction.maximize, ""⟩)], "site_id"⟩),
        Except.ok none, none,
        Except.ok [⟨"s1", some [("p", Value.num 4)]⟩, ⟨"s2", some [("p", Value.num 8)]⟩],
        none, none, 0⟩
      ⟨⟨"queued", none, none, none, 0⟩, [], 0⟩).2 = none ∧
     (Execute
      ⟨none,
        Except.ok (some ⟨[("p", ⟨FieldType.numeric, true, some 0, some 10, 1,
          Direction.maximize, ""⟩)], "site_id"⟩),
        Except.ok none, none,
        Except.ok [⟨"s1", some [("p", Value.num 4)]⟩, ⟨"s2", some [("p", Value.num 8)]⟩],
        none, none, 0⟩
      ⟨⟨"queued", none, none, none, 0⟩, [], 0⟩).1.persisted =
       [] ++ rankResults (scoreRecords
         ⟨[("p", ⟨FieldType.numeric, true, some 0, some 10, 1,
           Direction.maximize, ""⟩)], "site_id", [("p", 1)]⟩
         [⟨"s1", some [("p", Value.num 4)]⟩, ⟨"s2", some [("p", Value.num 8)]⟩]) ∧
     (rankResults (scoreRecords
         ⟨[("p", ⟨FieldType.numeric, true, some 0, some 10, 1,
           Direction.maximize, ""⟩)], "site_id", [("p", 1)]⟩
         [⟨"s1", some [("p", Value.num 4)]⟩, ⟨"s2", some [("p", Value.num 8)]⟩])).map
       (fun r => r.ranking) =
       List.range' 1 (scoreRecords
         ⟨[("p", ⟨FieldType.numeric, true, some 0, some 10, 1,
           Direction.maximize, ""⟩)], "site_id", [("p", 1)]⟩
         [⟨"s1", some [("p", Value.num 4)]⟩, ⟨"s2", some [("p", Value.num 8)]⟩]).length ∧
     (∀ k1 k2, k1 ≤ k2 → k2 < (scoreRecords
         ⟨[("p", ⟨FieldType.numeric, true, some 0, some 10, 1,
           Direction.maximize, ""⟩)], "site_id", [("p", 1)]⟩
         [⟨"s1", some [("p", Value.num 4)]⟩, ⟨"s2", some [("p", Value.num 8)]⟩]).length →
       fscore (rankResults (scoreRecords
         ⟨[("p", ⟨FieldType.numeric, true, some 0, some 10, 1,
           Direction.maximize, ""⟩)], "site_id", [("p", 1)]⟩
         [⟨"s1", some [("p", Value.num 4)]⟩, ⟨"s2", some [("p", Value.num 8)]⟩])) k1
         ≥ fscore (rankResults (scoreRecords
         ⟨[("p", ⟨FieldType.numeric, true, some 0, some 10, 1,
           Direction.maximize, ""⟩)], "site_id", [("p", 1)]⟩
         [⟨"s1", some [("p", Value.num 4)]⟩, ⟨"s2", some [("p", Value.num 8)]⟩])) k2)) :=
  ⟨rfl, by decide,
    c5_ranking_invariant _ _
      ⟨[("p", ⟨FieldType.numeric, true, some 0, some 10, 1,
        Direction.maximize, ""⟩)], "site_id"⟩
      none
      ⟨[("p", ⟨FieldType.numeric, true, some 0, some 10, 1,
        Direction.maximize, ""⟩)], "site_id", [("p", 1)]⟩
      [⟨"s1", some [("p", Value.num 4)]⟩, ⟨"s2", some [("p", Value.num 8)]⟩]
      rfl rfl rfl (by decide) rfl rfl (by decide) rfl rfl⟩

/-- C8: an `Execute` whose fetched input record set is empty marks the run
`succeeded` with `scoredCount = 0`, persists nothing, performs no
bulk-insert call, and returns without error. -/
theorem c8_empty_input (env : ExecEnv) (st : PipelineState)
    (g : GlobalSchemaConfig) (t : Option TenantSchemaOverride) (rsch : ResolvedSchema)
    (h1 : env.markRunningErr = none) (h2 : env.globalConfig = Except.ok (some g))
    (h3 : env.tenantConfig = Except.ok t) (h4 : Resolve g t = Except.ok rsch)
    (h5 : env.createSnapshotErr = none) (h6 : env.siteRecords = Except.ok [])
    (h9 : env.finalUpdateErr = none) :
    (Execute env st).2 = none ∧
    (Execute env st).1.run.status = "succeeded" ∧
    (Execute env st).1.run.scoredCount = some 0 ∧
    (Execute env st).1.persisted = st.persisted ∧
    (Execute env st).1.bulkInsertCalls = st.bulkInsertCalls := by
  rw [Execute_ok_empty env st g t rsch h1 h2 h3 h4 h5 h6 h9]
  exact ⟨rfl, rfl, rfl, rfl, rfl⟩

/-- Witness for C8 at a concrete environment with an empty record set. -/
theorem c8_witness :
    (⟨none,
      Except.ok (some ⟨[("p", ⟨FieldType.numeric, true, some 0, some 10, 1,
        Direction.maximize, ""⟩)], "site_id"⟩),
      Except.ok none, none, Except.ok [], none, none, 0⟩ : ExecEnv).siteRecords =
      Except.ok [] ∧
    ((Execute
      ⟨none,
        Except.ok (some ⟨[("p", ⟨FieldType.numeric, true, some 0, some 10, 1,
          Direction.maximize, ""⟩)], "site_id"⟩),
        Except.ok none, none, Except.ok [], none, none, 0⟩
      ⟨⟨"queued", none, none, none, 0⟩, [], 0⟩).2 = none ∧
     (Execute
      ⟨none,
        Except.ok (some ⟨[("p", ⟨FieldType.numeric, true, some 0, some 10, 1,
          Direction.maximize, ""⟩)], "site_id"⟩),
        Except.ok none, none, Except.ok [], none, none, 0⟩
      ⟨⟨"queued", none, none, none, 0⟩, [], 0⟩).1.run.status = "succeeded" ∧
     (Execute
      ⟨none,
        Except.ok (some ⟨[("p", ⟨FieldType.numeric, true, some 0, some 10, 1,
          Direction.maximize, ""⟩)], "site_id"⟩),
        Except.ok none, none, Except.ok [], none, none, 0⟩
      ⟨⟨"queued", none, none, none, 0⟩, [], 0⟩).1.run.scoredCount = some 0 ∧
     (Execute
      ⟨none,
        Except.ok (some ⟨[("p", ⟨FieldType.numeric, true, some 0, some 10, 1,
          Direction.maximize, ""⟩)], "site_id"⟩),
        Except.ok none, none, Except.ok [], none, none, 0⟩
      ⟨⟨"queued", none, none, none, 0⟩, [], 0⟩).1.persisted = [] ∧
     (Execute
      ⟨none,
        Except.ok (some ⟨[("p", ⟨FieldType.numeric, true, some 0, some 10, 1,
          Direction.maximize, ""⟩)], "site_id"⟩),
        Except.ok none, none, Except.ok [], none, none, 0⟩
      ⟨⟨"queued", none, none, none, 0⟩, [], 0⟩).1.bulkInsertCalls = 0) :=
  ⟨rfl,
    c8_empty_input _ _
      ⟨[("p", ⟨FieldType.numeric, true, some 0, some 10, 1,
        Direction.maximize, ""⟩)], "site_id"⟩
      none
      ⟨[("p", ⟨FieldType.numeric, true, some 0, some 10, 1,
        Direction.maximize, ""⟩)], "site_id", [("p", 1)]⟩
      rfl rfl rfl (by decide) rfl rfl rfl⟩

/-- C6 counterexample: the tie-break of one pipeline execution is NOT stable
on insertion order.  Input scores (2, 1, 1, 3) for sites a, b, c, d: b
appears before c with the same final score 1, yet the swap-based selection
sort leaves them in order d, a, c, b — c gets rank 3 and b gets rank 4. -/
theorem c6_counterexample :
    (rankResults [⟨"a", 2, 0, ⟨[]⟩, 0⟩, ⟨"b", 1, 0, ⟨[]⟩, 0⟩,
        ⟨"c", 1, 0, ⟨[]⟩, 0⟩, ⟨"d", 3, 0, ⟨[]⟩, 0⟩]).map
      (fun r => (r.siteID, r.ranking)) =
    [("d", 1), ("a", 2), ("c", 3), ("b", 4)] := by decide

theorem sortInner_all_eq (fuel : Nat) :
    ∀ (recs : List Recommendation) (i j : Nat),
      (∀ r1 ∈ recs, ∀ r2 ∈ recs, r1.finalScore = r2.finalScore) →
      sortInner fuel recs i j = recs := by
  induction fuel with
  | zero => intro recs i j _; rfl
  | succ f ih =>
    intro recs i j h
    unfold sortInner
    by_cases hj : j < recs.length
    · rw [dif_pos hj]
      by_cases hi : i < recs.length
      · rw [dif_pos hi]
        dsimp only
        have heq : (recs.get ⟨j, hj⟩).finalScore = (recs.get ⟨i, hi⟩).finalScore :=
          h _ (recs.get_mem j hj) _ (recs.get_mem i hi)
        rw [if_neg (by rw [heq]; exact lt_irrefl _)]
        exact ih recs i (j+1) h
      · rw [dif_neg hi]
    · rw [dif_neg hj]

theorem sortOuter_all_eq (fuel : Nat) :
    ∀ (recs : List Recommendation) (i : Nat),
      (∀ r1 ∈ recs, ∀ r2 ∈ recs, r1.finalScore = r2.finalScore) →
      sortOuter fuel recs i = recs := by
  induction fuel with
  | zero => intro recs i _; rfl
  | succ f ih =>
    intro recs i h
    unfold sortOuter
    by_cases hi : i < recs.length
    · rw [if_pos hi, sortInner_all_eq recs.length recs i (i+1) h]
      exact ih recs (i+1) h
    · rw [if_neg hi]

/-- C6 (amended): the order among equal-score results is a deterministic
function of insertion order but is not, in general, stable on it (the
counterexample inverts a tied pair); in the special case where every scored
result has the same final score, no swap ever fires and the ranking order is
exactly the insertion order. -/
theorem c6_all_ties_insertion_order (recs : List Recommendation)
    (h : ∀ r1 ∈ recs, ∀ r2 ∈ recs, r1.finalScore = r2.finalScore) :
    rankResults recs = assignRankings 0 recs := by
  unfold rankResults sortRecommendationsByScore
  rw [sortOuter_all_eq recs.length recs 0 h]

/-- Witness for C6 (amended) on a concrete all-equal-score list. -/
theorem c6_witness :
    (∀ r1 ∈ [(⟨"a", 5, 0, ⟨[]⟩, 0⟩ : Recommendation), ⟨"b", 5, 0, ⟨[]⟩, 0⟩],
      ∀ r2 ∈ [(⟨"a", 5, 0, ⟨[]⟩, 0⟩ : Recommendation), ⟨"b", 5, 0, ⟨[]⟩, 0⟩],
        r1.finalScore = r2.finalScore) ∧
    rankResults [(⟨"a", 5, 0, ⟨[]⟩, 0⟩ : Recommendation), ⟨"b", 5, 0, ⟨[]⟩, 0⟩] =
      assignRankings 0 [(⟨"a", 5, 0, ⟨[]⟩, 0⟩ : Recommendation), ⟨"b", 5, 0, ⟨[]⟩, 0⟩] :=
  ⟨by decide, c6_all_ties_insertion_order _ (by decide)⟩

theorem findClaim_append (t1 t2 : List IdempotencyKeyRow) (tid key rt : String) :
    findClaim (t1 ++ t2) tid key rt =
      match findClaim t1 tid key rt with
      | some r => some r
      | none => findClaim t2 tid key rt := by
  induction t1 with
  | nil => rfl
  | cons r rest ih =>
    have hcons : ∀ (l : List IdempotencyKeyRow), findClaim (r :: l) tid key rt =
        if r.tenantID = tid ∧ r.key = key ∧ r.resourceType = rt then
          some r.resourceID
        else findClaim l tid key rt := fun l => rfl
    rw [List.cons_append, hcons, hcons]
    by_cases h : r.tenantID = tid ∧ r.key = key ∧ r.resourceType = rt
    · rw [if_pos h, if_pos h]
    · rw [if_neg h, if_neg h]
      exact ih

/-- C7: for a fixed composite key (tenant, key, resourceType) not yet
claimed, the first `Claim` durably records its candidate and returns
`alreadyExists = false` with that candidate; afterwards EVERY later claim —
any candidate, any serial order of concurrent callers — returns
`alreadyExists = true` with the FIRST candidate, and leaves the stored table
unchanged (a no-op read, never a second write), so exactly one candidate is
ever recorded. -/
theorem c7_claim_idempotent (tbl : List IdempotencyKeyRow)
    (tid key rt cand : String) (hkey : ¬ key = "")
    (hnone : findClaim tbl tid key rt = none) :
    Claim tbl tid key rt cand =
      Except.ok (tbl ++ [⟨tid, key, rt, cand⟩], ⟨false, cand⟩) ∧
    findClaim (tbl ++ [⟨tid, key, rt, cand⟩]) tid key rt = some cand ∧
    (∀ cand2, Claim (tbl ++ [⟨tid, key, rt, cand⟩]) tid key rt cand2 =
      Except.ok (tbl ++ [⟨tid, key, rt, cand⟩], ⟨true, cand⟩)) ∧
    (∀ cands : List String,
      (claimAll (tbl ++ [⟨tid, key, rt, cand⟩]) tid key rt cands).2 =
        tbl ++ [⟨tid, key, rt, cand⟩] ∧
      (claimAll (tbl ++ [⟨tid, key, rt, cand⟩]) tid key rt cands).1 =
        cands.map (fun _ => Except.ok ⟨true, cand⟩)) := by
  have hfound : findClaim (tbl ++ [⟨tid, key, rt, cand⟩]) tid key rt = some cand := by
    rw [findClaim_append, hnone]
    unfold findClaim
    rw [if_pos ⟨rfl, rfl, rfl⟩]
  have hfirst : Claim tbl tid key rt cand =
      Except.ok (tbl ++ [⟨tid, key, rt, cand⟩], ⟨false, cand⟩) := by
    unfold Claim
    rw [if_neg hkey, hnone]
  have hrepeat : ∀ cand2, Claim (tbl ++ [⟨tid, key, rt, cand⟩]) tid key rt cand2 =
      Except.ok (tbl ++ [⟨tid, key, rt, cand⟩], ⟨true, cand⟩) := by
    intro cand2
    unfold Claim
    rw [if_neg hkey, hfound]
  refine ⟨hfirst, hfound, hrepeat, ?_⟩
  intro cands
  induction cands with
  | nil => exact ⟨rfl, rfl⟩
  | cons c rest ih =>
    unfold claimAll
    rw [hrepeat c]
    exact ⟨ih.1, by rw [List.map_cons, ← ih.2]⟩

/-- Witness for C7 on an empty table with two competing candidates. -/
theorem c7_witness :
    ¬ ("order-key" : String) = "" ∧
    findClaim [] "tenant1" "order-key" "scoring_run" = none ∧
    (Claim [] "tenant1" "order-key" "scoring_run" "run-A" =
      Except.ok ([⟨"tenant1", "order-key", "scoring_run", "run-A"⟩],
        ⟨false, "run-A"⟩) ∧
    findClaim [⟨"tenant1", "order-key", "scoring_run", "run-A"⟩]
      "tenant1" "order-key" "scoring_run" = some "run-A" ∧
    (∀ cand2, Claim [⟨"tenant1", "order-key", "scoring_run", "run-A"⟩]
        "tenant1" "order-key" "scoring_run" cand2 =
      Except.ok ([⟨"tenant1", "order-key", "scoring_run", "run-A"⟩],
        ⟨true, "run-A"⟩)) ∧
    (∀ cands : List String,
      (claimAll [⟨"tenant1", "order-key", "scoring_run", "run-A"⟩]
        "tenant1" "order-key" "scoring_run" cands).2 =
        [⟨"tenant1", "order-key", "scoring_run", "run-A"⟩] ∧
      (claimAll [⟨"tenant1", "order-key", "scoring_run", "run-A"⟩]
        "tenant1" "order-key" "scoring_run" cands).1 =
        cands.map (fun _ => Except.ok ⟨true, "run-A"⟩))) :=
  ⟨by decide, rfl,
    c7_claim_idempotent [] "tenant1" "order-key" "scoring_run" "run-A"
      (by decide) rfl⟩

theorem updateStatus_attempt (r : RunRecord) (s : String) (sc : Option Nat)
    (le : Option String) (dm : Option Nat) :
    (updateStatus r s sc le dm).attempt = r.attempt := rfl

theorem handleExecutionError_attempt (env : ExecEnv) (st : PipelineState)
    (msg : String) :
    (handleExecutionError env st msg).1.run.attempt = st.run.attempt := by
  unfold handleExecutionError
  split
  · exact updateStatus_attempt _ _ _ _ _
  · rfl

theorem Execute_attempt_invariant (env : ExecEnv) (st : PipelineState) :
    (Execute env st).1.run.attempt = st.run.attempt := by
  unfold Execute
  repeat' split
  all_goals
    simp [handleExecutionError_attempt, updateStatus_attempt]

theorem retryLoop_spec (env : RetryEnv) (hc : ∀ k, env.cancelled k = false)
    (hi : ∀ k, env.incrementErr k = none) :
    ∀ (fuel : Nat) (st : PipelineState) (attempt : Nat), 1 ≤ fuel →
      env.maxRetries + 1 = attempt + fuel →
      (1 ≤ (retryLoop env fuel st attempt).2.1 ∧
        (retryLoop env fuel st attempt).2.1 ≤ fuel) ∧
      (retryLoop env fuel st attempt).1.run.attempt
        = st.run.attempt + (retryLoop env fuel st attempt).2.1 ∧
      (∀ e, (retryLoop env fuel st attempt).2.2 ≠ LoopExit.cancelled e) ∧
      (∀ e, (retryLoop env fuel st attempt).2.2 = LoopExit.exhausted e →
        (retryLoop env fuel st attempt).2.1 = fuel) := by
  intro fuel
  induction fuel with
  | zero =>
    intro st attempt h1 _
    exact absurd h1 (by omega)
  | succ f ih =>
    intro st attempt _ h2
    unfold retryLoop
    rw [hi attempt]
    dsimp only
    have hinv := Execute_attempt_invariant (env.attempts attempt) (incrState st)
    cases hE : Execute (env.attempts attempt) (incrState st) with
    | mk st2 res =>
      rw [hE] at hinv
      cases res with
      | none =>
        dsimp only
        refine ⟨⟨le_refl 1, by omega⟩, hinv, fun e he => ?_, fun e he => by cases he⟩
        cases he
      | some e =>
        dsimp only
        by_cases hat : attempt ≥ env.maxRetries
        · rw [if_pos hat]
          dsimp only
          refine ⟨⟨le_refl 1, by omega⟩, hinv, fun e2 he => ?_, fun e2 _ => by omega⟩
          cases he
        · rw [if_neg hat, hc attempt]
          rw [if_neg (by simp)]
          dsimp only
          obtain ⟨⟨r1, r2⟩, r3, r4, r5⟩ := ih st2 (attempt + 1) (by omega) (by omega)
          have hinv2 : st2.run.attempt = st.run.attempt + 1 := hinv
          refine ⟨⟨by omega, by omega⟩, ?_, ?_, ?_⟩
          · rw [r3, hinv2]
            omega
          · intro e2
            exact r4 e2
          · intro e2 he2
            have := r5 e2 he2
            omega

theorem retryLoop_first_success (env : RetryEnv) (hc : ∀ k, env.cancelled k = false)
    (hi : ∀ k, env.incrementErr k = none) :
    ∀ (k fuel : Nat) (st : PipelineState) (attempt : Nat),
      env.maxRetries + 1 = attempt + fuel → k < fuel →
      (∀ i, i < k →
        (Execute (env.attempts (attempt + i))
          (incrState (failChain env attempt st i))).2 ≠ none) →
      (Execute (env.attempts (attempt + k))
        (incrState (failChain env attempt st k))).2 = none →
      retryLoop env fuel st attempt =
        ((Execute (env.attempts (attempt + k))
          (incrState (failChain env attempt st k))).1, k + 1, LoopExit.success) := by
  intro k
  induction k with
  | zero =>
    intro fuel st attempt h2 hk hfails hsucc
    cases fuel with
    | zero => exact absurd hk (by omega)
    | succ f =>
      have hsucc2 : (Execute (env.attempts attempt) (incrState st)).2 = none := hsucc
      show retryLoop env (f + 1) st attempt
        = ((Execute (env.attempts attempt) (incrState st)).1, 1, LoopExit.success)
      unfold retryLoop
      rw [hi attempt]
      dsimp only
      cases hE : Execute (env.attempts attempt) (incrState st) with
      | mk st2 res =>
        rw [hE] at hsucc2
        have hres2 : res = none := hsucc2
        subst hres2
        rfl
  | succ k2 ih =>
    intro fuel st attempt h2 hk hfails hsucc
    cases fuel with
    | zero => exact absurd hk (by omega)
    | succ f =>
      have hfail0 : (Execute (env.attempts attempt) (incrState st)).2 ≠ none :=
        hfails 0 (by omega)
      unfold retryLoop
      rw [hi attempt]
      dsimp only
      cases hE : Execute (env.attempts attempt) (incrState st) with
      | mk st2 res =>
        cases res with
        | none =>
          rw [hE] at hfail0
          exact absurd rfl hfail0
        | some e =>
          dsimp only
          have hat : ¬ attempt ≥ env.maxRetries := by omega
          rw [if_neg hat, hc attempt, if_neg (by simp)]
          have hshift : ∀ i, failChain env (attempt + 1) st2 i
              = failChain env attempt st (i + 1) := by
            intro i
            induction i with
            | zero =>
              show st2 = (Execute (env.attempts attempt) (incrState st)).1
              rw [hE]
            | succ i2 ih2 =>
              show (Execute (env.attempts (attempt + 1 + i2))
                  (incrState (failChain env (attempt + 1) st2 i2))).1
                = (Execute (env.attempts (attempt + (i2 + 1)))
                  (incrState (failChain env attempt st (i2 + 1)))).1
              rw [ih2, show attempt + 1 + i2 = attempt + (i2 + 1) by omega]
          have harg1 : ∀ i, i < k2 →
              (Execute (env.attempts (attempt + 1 + i))
                (incrState (failChain env (attempt + 1) st2 i))).2 ≠ none := by
            intro i hi2
            rw [hshift i, show attempt + 1 + i = attempt + (i + 1) by omega]
            exact hfails (i + 1) (by omega)
          have harg2 : (Execute (env.attempts (attempt + 1 + k2))
              (incrState (failChain env (attempt + 1) st2 k2))).2 = none := by
            rw [hshift k2, show attempt + 1 + k2 = attempt + (k2 + 1) by omega]
            exact hsucc
          rw [ih f st2 (attempt + 1) (by omega) (by omega) harg1 harg2, hshift k2,
            show attempt + 1 + k2 = attempt + (k2 + 1) by omega]

/-- C9: with the increment-attempt store calls succeeding and no
cancellation, `ExecuteWithRetry` performs between 1 and `maxRetries + 1`
`Execute` attempts, incrementing the run's attempt counter before each (the
final counter grows by exactly the number of attempts); if the first attempt
succeeds it returns nil immediately with that attempt's state — no further
attempts, no further status updates; and when it returns an error, all
`maxRetries + 1` attempts were performed and it performed exactly one final
status update to `failed` whose message is the composite
`scoring pipeline failed after <maxRetries+1> attempts: <lastErr>`. -/
theorem c9_retry_contract (env : RetryEnv) (st : PipelineState)
    (hc : ∀ k, env.cancelled k = false) (hi : ∀ k, env.incrementErr k = none) :
    (1 ≤ (ExecuteWithRetry env st).2.1 ∧
      (ExecuteWithRetry env st).2.1 ≤ env.maxRetries + 1) ∧
    (ExecuteWithRetry env st).1.run.attempt
      = st.run.attempt + (ExecuteWithRetry env st).2.1 ∧
    (∀ k, k ≤ env.maxRetries →
      (∀ i, i < k →
        (Execute (env.attempts i) (incrState (failChain env 0 st i))).2 ≠ none) →
      (Execute (env.attempts k) (incrState (failChain env 0 st k))).2 = none →
      ExecuteWithRetry env st =
        ((Execute (env.attempts k) (incrState (failChain env 0 st k))).1,
          k + 1, none)) ∧
    (∀ msg, (ExecuteWithRetry env st).2.2 = some msg →
      (ExecuteWithRetry env st).2.1 = env.maxRetries + 1 ∧
      ∃ lastErr stL,
        msg = "scoring pipeline failed after " ++ toString (env.maxRetries + 1)
          ++ " attempts: " ++ lastErr ∧
        retryLoop env (env.maxRetries + 1) st 0
          = (stL, env.maxRetries + 1, LoopExit.exhausted lastErr) ∧
        (ExecuteWithRetry env st).1 =
          (if env.failedUpdateErr = none then
            { stL with run := updateStatus stL.run "failed" none (some msg) none }
          else stL)) := by
  obtain ⟨⟨b1, b2⟩, batt, bnc, bex⟩ :=
    retryLoop_spec env hc hi (env.maxRetries + 1) st 0 (by omega) (by omega)
  have hgen : ∀ k, k ≤ env.maxRetries →
      (∀ i, i < k →
        (Execute (env.attempts i) (incrState (failChain env 0 st i))).2 ≠ none) →
      (Execute (env.attempts k) (incrState (failChain env 0 st k))).2 = none →
      retryLoop env (env.maxRetries + 1) st 0 =
        ((Execute (env.attempts k) (incrState (failChain env 0 st k))).1,
          k + 1, LoopExit.success) := by
    intro k hk hfails hsucc
    have harg1 : ∀ i, i < k →
        (Execute (env.attempts (0 + i)) (incrState (failChain env 0 st i))).2
          ≠ none := by
      intro i hi2
      rw [Nat.zero_add]
      exact hfails i hi2
    have harg2 : (Execute (env.attempts (0 + k))
        (incrState (failChain env 0 st k))).2 = none := by
      rw [Nat.zero_add]
      exact hsucc
    have hres := retryLoop_first_success env hc hi k (env.maxRetries + 1) st 0
      (by omega) (by omega) harg1 harg2
    rw [Nat.zero_add] at hres
    exact hres
  unfold ExecuteWithRetry
  cases hL : retryLoop env (env.maxRetries + 1) st 0 with
  | mk stF rest =>
    cases rest with
    | mk n ex =>
      rw [hL] at b1 b2 batt bnc bex
      dsimp only at b1 b2 batt bnc bex
      cases ex with
      | success =>
        dsimp only
        refine ⟨⟨b1, b2⟩, batt, ?_, ?_⟩
        · intro k hk hfails hsucc
          have hres := hgen k hk hfails hsucc
          rw [hL] at hres
          simp only [Prod.mk.injEq] at hres
          rw [hres.1, hres.2.1]
        · intro msg hmsg
          cases hmsg
      | cancelled e =>
        exact absurd rfl (bnc e)
      | exhausted lastErr =>
        dsimp only
        refine ⟨⟨b1, b2⟩, ?_, ?_, ?_⟩
        · split
          · rw [updateStatus_attempt]
            exact batt
          · exact batt
        · intro k hk hfails hsucc
          have hres := hgen k hk hfails hsucc
          rw [hL] at hres
          simp at hres
        · intro msg hmsg
          have hn := bex lastErr rfl
          cases hmsg
          refine ⟨hn, lastErr, stF, rfl, ?_, ?_⟩
          · rw [← hn]
          · split
            · rfl
            · rfl

/-- Witness for C9 at a concrete retry environment (maxRetries 1, every
attempt failing at the mark-running step, no cancellation). -/
theorem c9_witness :
    (∀ k, (⟨1, fun _ => ⟨some "boom", Except.ok none, Except.ok none, none,
      Except.ok [], none, none, 0⟩, fun _ => none, fun _ => false, none⟩ : RetryEnv).cancelled k = false) ∧
    (∀ k, (⟨1, fun _ => ⟨some "boom", Except.ok none, Except.ok none, none,
      Except.ok [], none, none, 0⟩, fun _ => none, fun _ => false, none⟩ : RetryEnv).incrementErr k = none) ∧
    ((1 ≤ (ExecuteWithRetry (⟨1, fun _ => ⟨some "boom", Except.ok none, Except.ok none, none,
      Except.ok [], none, none, 0⟩, fun _ => none, fun _ => false, none⟩ : RetryEnv) (⟨⟨"queued", none, none, none, 0⟩, [], 0⟩ : PipelineState)).2.1 ∧
      (ExecuteWithRetry (⟨1, fun _ => ⟨some "boom", Except.ok none, Except.ok none, none,
      Except.ok [], none, none, 0⟩, fun _ => none, fun _ => false, none⟩ : RetryEnv) (⟨⟨"queued", none, none, none, 0⟩, [], 0⟩ : PipelineState)).2.1 ≤ (⟨1, fun _ => ⟨some "boom", Except.ok none, Except.ok none, none,
      Except.ok [], none, none, 0⟩, fun _ => none, fun _ => false, none⟩ : RetryEnv).maxRetries + 1) ∧
    (ExecuteWithRetry (⟨1, fun _ => ⟨some "boom", Except.ok none, Except.ok none, none,
      Except.ok [], none, none, 0⟩, fun _ => none, fun _ => false, none⟩ : RetryEnv) (⟨⟨"queued", none, none, none, 0⟩, [], 0⟩ : PipelineState)).1.run.attempt
      = (⟨⟨"queued", none, none, none, 0⟩, [], 0⟩ : PipelineState).run.attempt + (ExecuteWithRetry (⟨1, fun _ => ⟨some "boom", Except.ok none, Except.ok none, none,
      Except.ok [], none, none, 0⟩, fun _ => none, fun _ => false, none⟩ : RetryEnv) (⟨⟨"queued", none, none, none, 0⟩, [], 0⟩ : PipelineState)).2.1 ∧
    (∀ k, k ≤ (⟨1, fun _ => ⟨some "boom", Except.ok none, Except.ok none, none,
      Except.ok [], none, none, 0⟩, fun _ => none, fun _ => false, none⟩ : RetryEnv).maxRetries →
      (∀ i, i < k →
        (Execute ((⟨1, fun _ => ⟨some "boom", Except.ok none, Except.ok none, none,
      Except.ok [], none, none, 0⟩, fun _ => none, fun _ => false, none⟩ : RetryEnv).attempts i)
          (incrState (failChain (⟨1, fun _ => ⟨some "boom", Except.ok none, Except.ok none, none,
      Except.ok [], none, none, 0⟩, fun _ => none, fun _ => false, none⟩ : RetryEnv) 0 (⟨⟨"queued", none, none, none, 0⟩, [], 0⟩ : PipelineState) i))).2 ≠ none) →
      (Execute ((⟨1, fun _ => ⟨some "boom", Except.ok none, Except.ok none, none,
      Except.ok [], none, none, 0⟩, fun _ => none, fun _ => false, none⟩ : RetryEnv).attempts k)
        (incrState (failChain (⟨1, fun _ => ⟨some "boom", Except.ok none, Except.ok none, none,
      Except.ok [], none, none, 0⟩, fun _ => none, fun _ => false, none⟩ : RetryEnv) 0 (⟨⟨"queued", none, none, none, 0⟩, [], 0⟩ : PipelineState) k))).2 = none →
      ExecuteWithRetry (⟨1, fun _ => ⟨some "boom", Except.ok none, Except.ok none, none,
      Except.ok [], none, none, 0⟩, fun _ => none, fun _ => false, none⟩ : RetryEnv) (⟨⟨"queued", none, none, none, 0⟩, [], 0⟩ : PipelineState) =
        ((Execute ((⟨1, fun _ => ⟨some "boom", Except.ok none, Except.ok none, none,
      Except.ok [], none, none, 0⟩, fun _ => none, fun _ => false, none⟩ : RetryEnv).attempts k)
          (incrState (failChain (⟨1, fun _ => ⟨some "boom", Except.ok none, Except.ok none, none,
      Except.ok [], none, none, 0⟩, fun _ => none, fun _ => false, none⟩ : RetryEnv) 0 (⟨⟨"queued", none, none, none, 0⟩, [], 0⟩ : PipelineState) k))).1, k + 1, none)) ∧
    (∀ msg, (ExecuteWithRetry (⟨1, fun _ => ⟨some "boom", Except.ok none, Except.ok none, none,
      Except.ok [], none, none, 0⟩, fun _ => none, fun _ => false, none⟩ : RetryEnv) (⟨⟨"queued", none, none, none, 0⟩, [], 0⟩ : PipelineState)).2.2 = some msg →
      (ExecuteWithRetry (⟨1, fun _ => ⟨some "boom", Except.ok none, Except.ok none, none,
      Except.ok [], none, none, 0⟩, fun _ => none, fun _ => false, none⟩ : RetryEnv) (⟨⟨"queued", none, none, none, 0⟩, [], 0⟩ : PipelineState)).2.1 = (⟨1, fun _ => ⟨some "boom", Except.ok none, Except.ok none, none,
      Except.ok [], none, none, 0⟩, fun _ => none, fun _ => false, none⟩ : RetryEnv).maxRetries + 1 ∧
      ∃ lastErr stL,
        msg = "scoring pipeline failed after " ++ toString ((⟨1, fun _ => ⟨some "boom", Except.ok none, Except.ok none, none,
      Except.ok [], none, none, 0⟩, fun _ => none, fun _ => false, none⟩ : RetryEnv).maxRetries + 1)
          ++ " attempts: " ++ lastErr ∧
        retryLoop (⟨1, fun _ => ⟨some "boom", Except.ok none, Except.ok none, none,
      Except.ok [], none, none, 0⟩, fun _ => none, fun _ => false, none⟩ : RetryEnv) ((⟨1, fun _ => ⟨some "boom", Except.ok none, Except.ok none, none,
      Except.ok [], none, none, 0⟩, fun _ => none, fun _ => false, none⟩ : RetryEnv).maxRetries + 1) (⟨⟨"queued", none, none, none, 0⟩, [], 0⟩ : PipelineState) 0
          = (stL, (⟨1, fun _ => ⟨some "boom", Except.ok none, Except.ok none, none,
      Except.ok [], none, none, 0⟩, fun _ => none, fun _ => false, none⟩ : RetryEnv).maxRetries + 1, LoopExit.exhausted lastErr) ∧
        (ExecuteWithRetry (⟨1, fun _ => ⟨some "boom", Except.ok none, Except.ok none, none,
      Except.ok [], none, none, 0⟩, fun _ => none, fun _ => false, none⟩ : RetryEnv) (⟨⟨"queued", none, none, none, 0⟩, [], 0⟩ : PipelineState)).1 =
          (if (⟨1, fun _ => ⟨some "boom", Except.ok none, Except.ok none, none,
      Except.ok [], none, none, 0⟩, fun _ => none, fun _ => false, none⟩ : RetryEnv).failedUpdateErr = none then
            { stL with run := updateStatus stL.run "failed" none (some msg) none }
          else stL))) :=
  ⟨fun k => rfl, fun k => rfl,
    c9_retry_contract (⟨1, fun _ => ⟨some "boom", Except.ok none, Except.ok none, none,
      Except.ok [], none, none, 0⟩, fun _ => none, fun _ => false, none⟩ : RetryEnv) (⟨⟨"queued", none, none, none, 0⟩, [], 0⟩ : PipelineState) (fun k => rfl) (fun k => rfl)⟩

end SiteIQ
